import Mathlib

/-!
JustKit `jk_aio.c`: emulated asynchronous file I/O.

A shallow embedding of `src/jk_aio.c`.  The C program keeps a global completion
queue `aio` (an intrusive singly linked list of finished requests plus a
counter), a handle `worker_pool` to an external thread pool, and heap-allocated
request objects.  The model is explicit state passing over

* a request heap (`reqs`) and a string heap (`strs`), both maps from addresses,
* the two globals `aio` and `worker_pool`,
* observation logs (callback invocations, calls of `free`, work accepted by the
  executor), which record what the program did and never influence it.

Pointers are `Option Nat`: `none` is `NULL`.  Dereferencing `NULL` or an address
that holds no live object is a fault.  Everything the C code obtains from its
environment (allocator results, the return value of `jk_thread_pool_push`, the
return value of `pthread_mutex_init`, the system calls, the values of the
`jk_aio_operate_*` enumerators declared in the header) is a parameter.

The integer fields of the request and the counter `aio.count` are declared in
`jk_aio.h`, which is not part of the sources at hand; they are mathematical
integers here and values are stored and passed on unconverted.  The local
`int processed` of `jk_aio_poll` counts loop iterations; in a drain without
concurrent Finish it ends at the initial `aio.count`, so it is in range
whenever that counter is, and it is a mathematical integer as well.

Callbacks (`req->finish`) are arbitrary caller code.  The model records each
invocation in a log and takes the callback to leave the modelled state alone.
Buffers handed to `read` and `write` belong to the environment of the system
calls, apart from the request heap and the path copies.
-/

namespace JkAio

/-! ## Data model -/

/-- A C pointer: `none` is `NULL`, `some a` is the address `a`. -/
abbrev Ptr := Option Nat

/-- The request object `jk_aio_request_t`, with the fields `jk_aio.c` uses. -/
structure jk_aio_request_t where
  type : Int
  fd : Int
  path : Ptr
  buf : Ptr
  size : Int
  flags : Int
  mode : Int
  result : Int
  finish : Ptr
  next : Ptr
deriving DecidableEq, Repr

/-- State of a `pthread_mutex_t`. -/
inductive LockState where
  | uninit
  | ready
  | destroyed
deriving DecidableEq, Repr

/-- The completion queue `jk_aio_t`: lock, list head `response`, and `count`. -/
structure jk_aio_t where
  lock : LockState
  response : Ptr
  count : Int
deriving DecidableEq, Repr

/-- Program state: the globals `aio` and `worker_pool`, the heap, and the
observation logs (chronological, oldest first). -/
structure State where
  /-- the global `aio` -/
  aio : jk_aio_t
  /-- the global `worker_pool` -/
  worker_pool : Ptr
  /-- live request objects -/
  reqs : Nat → Option jk_aio_request_t
  /-- live C strings -/
  strs : Nat → Option String
  /-- log: requests handed to and accepted by the executor -/
  pushed : List Nat
  /-- log: callback invocations, as (function, request) -/
  calls : List (Nat × Nat)
  /-- log: request addresses passed to `free` -/
  freed : List Nat
  /-- log: path addresses passed to `free` -/
  freedPaths : List Nat

/-- Values of the enumerators `jk_aio_operate_*` (declared in `jk_aio.h`). -/
structure OpCodes where
  jk_aio_operate_read : Int
  jk_aio_operate_write : Int
  jk_aio_operate_close : Int
  jk_aio_operate_open : Int
  jk_aio_operate_mkdir : Int
  jk_aio_operate_rmdir : Int
deriving DecidableEq, Repr

/-- The six enumerators are pairwise different (they label the cases of one
`switch`, which C only accepts for distinct values). -/
def OpCodes.Distinct (k : OpCodes) : Prop :=
  [k.jk_aio_operate_read, k.jk_aio_operate_write, k.jk_aio_operate_close,
   k.jk_aio_operate_open, k.jk_aio_operate_mkdir, k.jk_aio_operate_rmdir].Nodup

instance (k : OpCodes) : Decidable k.Distinct := by
  unfold OpCodes.Distinct; infer_instance

/-- The blocking system calls, over an environment `W` (file system, caller
buffers).  Each returns its value and the new environment.  A path argument is
passed as the string found at the pointer (`none` for an invalid pointer). -/
structure Syscalls (W : Type) where
  read : W → Int → Ptr → Int → Int × W
  write : W → Int → Ptr → Int → Int × W
  close : W → Int → Int × W
  open_ : W → Option String → Int → Int → Int × W
  mkdir : W → Option String → Int → Int × W
  rmdir : W → Option String → Int × W

/-- What one submission call gets from its environment: the result of `malloc`
for the request, the result of `strdup` for the path copy, and the return
value of `jk_thread_pool_push`. -/
structure Env where
  malloc : Ptr
  strdup : Ptr
  push : Int
deriving DecidableEq, Repr

/-! ## Heap primitives -/

/-- Write the request object at address `a`. -/
def State.store (s : State) (a : Nat) (r : jk_aio_request_t) : State :=
  { s with reqs := Function.update s.reqs a (some r) }

/-- The string a `char *` points to, if any. -/
def State.cstr (s : State) (p : Ptr) : Option String :=
  p.bind s.strs

/-- The call `free(req)` on a request address. -/
def free_req (s : State) (a : Nat) : State :=
  { s with reqs := Function.update s.reqs a none, freed := s.freed ++ [a] }

/-- The call `free(path)` on a string address. -/
def free_str (s : State) (p : Nat) : State :=
  { s with strs := Function.update s.strs p none, freedPaths := s.freedPaths ++ [p] }

/-- The call `strdup(path)`: reads the string at `path` (a fault when there is
none) and, when the allocator delivers `res = some p`, stores a copy at `p`. -/
def strdup (res : Ptr) (s : State) (path : Ptr) : Option (Ptr × State) :=
  match s.cstr path with
  | none => none
  | some str =>
    match res with
    | none => some (none, s)
    | some p => some (some p, { s with strs := Function.update s.strs p (some str) })

/-! ## Request construction, submission, destruction -/

/-- The zero-filled request of `memset(req, 0, sizeof(*req))` with `type`,
`finish` and `next` assigned. -/
def blank (type : Int) (finish : Ptr) : jk_aio_request_t :=
  { type := type, fd := 0, path := none, buf := none, size := 0, flags := 0,
    mode := 0, result := 0, finish := finish, next := none }

/-- The function `jk_aio_request`: allocate and initialise a request; `NULL` when `malloc`
fails. -/
def jk_aio_request (malloc : Ptr) (s : State) (type : Int) (finish : Ptr) :
    Ptr × State :=
  match malloc with
  | none => (none, s)
  | some a => (some a, s.store a (blank type finish))

/-- Modelled from the spec: `jk_thread_pool_push` of the thread pool
(`jk_thread_pool.h`, not in the sources at hand).  It returns `ret`; when that
is 0 the executor has accepted the request as one unit of work (Execute, then
Finish), otherwise it has taken nothing. -/
def jk_thread_pool_push (ret : Int) (s : State) (arg : Nat) : Int × State :=
  if ret = 0 then (ret, { s with pushed := s.pushed ++ [arg] }) else (ret, s)

/-- The function `jk_aio_submit`: hand the request to the pool; -1 when the pool refuses. -/
def jk_aio_submit (push : Int) (s : State) (req : Nat) : Int × State :=
  let (rc, s1) := jk_thread_pool_push push s req
  if rc ≠ 0 then (-1, s1) else (0, s1)

/-- The function `jk_aio_destory`: free the path copy if there is one, then the request.
A fault when `req` is no live request. -/
def jk_aio_destory (s : State) (req : Ptr) : Option State :=
  match req with
  | none => none
  | some a =>
    match s.reqs a with
    | none => none
    | some r =>
      let s1 := match r.path with
        | some p => free_str s p
        | none => s
      some (free_req s1 a)

/-! ## Execute phase -/

/-- The function `jk_aio_execute`: dispatch on `req->type`, run the system call, store its
return value in `req->result`.  A fault when `arg` is no live request. -/
def jk_aio_execute {W : Type} (k : OpCodes) (sys : Syscalls W) (w : W) (s : State)
    (arg : Ptr) : Option (W × State) :=
  match arg with
  | none => none
  | some a =>
    match s.reqs a with
    | none => none
    | some req =>
      if req.type = k.jk_aio_operate_read then
        let (v, w1) := sys.read w req.fd req.buf req.size
        some (w1, s.store a { req with result := v })
      else if req.type = k.jk_aio_operate_write then
        let (v, w1) := sys.write w req.fd req.buf req.size
        some (w1, s.store a { req with result := v })
      else if req.type = k.jk_aio_operate_close then
        let (v, w1) := sys.close w req.fd
        some (w1, s.store a { req with result := v })
      else if req.type = k.jk_aio_operate_open then
        let (v, w1) := sys.open_ w (s.cstr req.path) req.flags req.mode
        some (w1, s.store a { req with result := v })
      else if req.type = k.jk_aio_operate_mkdir then
        let (v, w1) := sys.mkdir w (s.cstr req.path) req.mode
        some (w1, s.store a { req with result := v })
      else if req.type = k.jk_aio_operate_rmdir then
        let (v, w1) := sys.rmdir w (s.cstr req.path)
        some (w1, s.store a { req with result := v })
      else
        some (w, s)

/-! ## Submission API -/

/-- The function `jk_aio_read`. -/
def jk_aio_read (k : OpCodes) (e : Env) (s : State) (fd : Int) (buf : Ptr) (size : Int)
    (finish : Ptr) : Int × State :=
  match jk_aio_request e.malloc s k.jk_aio_operate_read finish with
  | (none, _) => (-1, s)
  | (some a, s1) =>
    let r := blank k.jk_aio_operate_read finish
    let s2 := s1.store a { r with fd := fd, buf := buf, size := size }
    jk_aio_submit e.push s2 a

/-- The function `jk_aio_write`. -/
def jk_aio_write (k : OpCodes) (e : Env) (s : State) (fd : Int) (buf : Ptr) (size : Int)
    (finish : Ptr) : Int × State :=
  match jk_aio_request e.malloc s k.jk_aio_operate_write finish with
  | (none, _) => (-1, s)
  | (some a, s1) =>
    let r := blank k.jk_aio_operate_write finish
    let s2 := s1.store a { r with fd := fd, buf := buf, size := size }
    jk_aio_submit e.push s2 a

/-- The function `jk_aio_open`.  A fault (`none`) only when `strdup` reads an invalid
`path`. -/
def jk_aio_open (k : OpCodes) (e : Env) (s : State) (path : Ptr) (flags mode : Int)
    (finish : Ptr) : Option (Int × State) :=
  match jk_aio_request e.malloc s k.jk_aio_operate_open finish with
  | (none, _) => some (-1, s)
  | (some a, s1) =>
    let r := blank k.jk_aio_operate_open finish
    match strdup e.strdup s1 path with
    | none => none
    | some (p, s2) =>
      let s3 := s2.store a { r with path := p }
      match p with
      | none => (jk_aio_destory s3 (some a)).map (fun s4 => (-1, s4))
      | some _ =>
        let s4 := s3.store a { r with path := p, flags := flags, mode := mode }
        some (jk_aio_submit e.push s4 a)

/-- The function `jk_aio_close`. -/
def jk_aio_close (k : OpCodes) (e : Env) (s : State) (fd : Int) (finish : Ptr) :
    Int × State :=
  match jk_aio_request e.malloc s k.jk_aio_operate_close finish with
  | (none, _) => (-1, s)
  | (some a, s1) =>
    let r := blank k.jk_aio_operate_close finish
    let s2 := s1.store a { r with fd := fd }
    jk_aio_submit e.push s2 a

/-- The function `jk_aio_mkdir`.  A fault (`none`) only when `strdup` reads an invalid
`path`. -/
def jk_aio_mkdir (k : OpCodes) (e : Env) (s : State) (path : Ptr) (mode : Int)
    (finish : Ptr) : Option (Int × State) :=
  match jk_aio_request e.malloc s k.jk_aio_operate_mkdir finish with
  | (none, _) => some (-1, s)
  | (some a, s1) =>
    let r := blank k.jk_aio_operate_mkdir finish
    match strdup e.strdup s1 path with
    | none => none
    | some (p, s2) =>
      let s3 := s2.store a { r with path := p }
      match p with
      | none => (jk_aio_destory s3 (some a)).map (fun s4 => (-1, s4))
      | some _ =>
        let s4 := s3.store a { r with path := p, mode := mode }
        some (jk_aio_submit e.push s4 a)

/-- The function `jk_aio_rmdir`.  A fault (`none`) only when `strdup` reads an invalid
`path`. -/
def jk_aio_rmdir (k : OpCodes) (e : Env) (s : State) (path : Ptr) (finish : Ptr) :
    Option (Int × State) :=
  match jk_aio_request e.malloc s k.jk_aio_operate_rmdir finish with
  | (none, _) => some (-1, s)
  | (some a, s1) =>
    let r := blank k.jk_aio_operate_rmdir finish
    match strdup e.strdup s1 path with
    | none => none
    | some (p, s2) =>
      let s3 := s2.store a { r with path := p }
      match p with
      | none => (jk_aio_destory s3 (some a)).map (fun s4 => (-1, s4))
      | some _ => some (jk_aio_submit e.push s3 a)

/-! ## Submission calls and their direct counterparts -/

/-- One submission, by operation kind, with the arguments the caller passes. -/
inductive Call where
  | read (fd : Int) (buf : Ptr) (size : Int)
  | write (fd : Int) (buf : Ptr) (size : Int)
  | open_ (path : Ptr) (flags mode : Int)
  | close (fd : Int)
  | mkdir (path : Ptr) (mode : Int)
  | rmdir (path : Ptr)
deriving DecidableEq, Repr

/-- The `path` argument of a path-based submission. -/
def Call.pathArg : Call → Option Ptr
  | Call.open_ path _ _ => some path
  | Call.mkdir path _ => some path
  | Call.rmdir path => some path
  | _ => none

/-- The matching submission function applied to the arguments of the call. -/
def submit (k : OpCodes) (e : Env) (s : State) (c : Call) (finish : Ptr) :
    Option (Int × State) :=
  match c with
  | Call.read fd buf size => some (jk_aio_read k e s fd buf size finish)
  | Call.write fd buf size => some (jk_aio_write k e s fd buf size finish)
  | Call.open_ path flags mode => jk_aio_open k e s path flags mode finish
  | Call.close fd => some (jk_aio_close k e s fd finish)
  | Call.mkdir path mode => jk_aio_mkdir k e s path mode finish
  | Call.rmdir path => jk_aio_rmdir k e s path finish

/-- Reference semantics, from the specification: the value the system call
returns when the caller invokes it directly, in environment `w`, with the same
arguments; a path argument is the string at the caller's pointer in `s`. -/
def direct {W : Type} (sys : Syscalls W) (w : W) (s : State) : Call → Int
  | Call.read fd buf size => (sys.read w fd buf size).1
  | Call.write fd buf size => (sys.write w fd buf size).1
  | Call.open_ path flags mode => (sys.open_ w (s.cstr path) flags mode).1
  | Call.close fd => (sys.close w fd).1
  | Call.mkdir path mode => (sys.mkdir w (s.cstr path) mode).1
  | Call.rmdir path => (sys.rmdir w (s.cstr path)).1


/-! ## Initialisation -/

/-- The call `pthread_mutex_init` returning `ret`: the lock is usable exactly when the
call returned 0. -/
def pthread_mutex_init (ret : Int) (l : LockState) : LockState :=
  if ret = 0 then LockState.ready else l

/-- The call `pthread_mutex_destroy`. -/
def pthread_mutex_destroy (_l : LockState) : LockState :=
  LockState.destroyed

/-- The function `jk_aio_init`.  `mutex_ret` is what `pthread_mutex_init` returns,
`jk_thread_pool_new` the pool constructor of the external thread pool and
`JK_AIO_WORKER_THREADS` the constant of the header. -/
def jk_aio_init (mutex_ret : Int) (jk_thread_pool_new : Int → Ptr)
    (JK_AIO_WORKER_THREADS : Int) (s : State) : Int × State :=
  let s1 := { s with aio := { s.aio with lock := pthread_mutex_init mutex_ret s.aio.lock } }
  if mutex_ret = -1 then (-1, s1)
  else
    let s2 := { s1 with aio := { s1.aio with response := none, count := 0 } }
    let s3 := { s2 with worker_pool := jk_thread_pool_new JK_AIO_WORKER_THREADS }
    if s3.worker_pool = none then
      (-1, { s3 with aio := { s3.aio with lock := pthread_mutex_destroy s3.aio.lock } })
    else (0, s3)

/-! ## Finish phase

The critical sections (between `pthread_mutex_lock` and `pthread_mutex_unlock`)
are atomic steps of the model. -/

/-- The function `jk_aio_fininsh`: push the request on the head of `aio.response` and
increment `aio.count`.  A fault when `arg` is no live request. -/
def jk_aio_fininsh (s : State) (arg : Ptr) : Option State :=
  match arg with
  | none => none
  | some a =>
    match s.reqs a with
    | none => none
    | some req =>
      let s1 := s.store a { req with next := s.aio.response }
      some { s1 with aio := { s1.aio with response := some a, count := s1.aio.count + 1 } }

/-- Run `jk_aio_fininsh` on the requests of a list, first to last. -/
def finishAll (s : State) : List Nat → Option State
  | [] => some s
  | a :: rest => (jk_aio_fininsh s (some a)).bind (fun s1 => finishAll s1 rest)

/-! ## Poll / drain loop -/

/-- Result of the critical section of one iteration of `jk_aio_poll`. -/
inductive Pop where
  /-- the test `aio.count <= 0` held: the loop returns -/
  | empty
  /-- a fault: `req->next` was read through `NULL` or a dangling pointer -/
  | fault
  /-- the request at address `a` was unlinked, leaving state `s` -/
  | item (a : Nat) (s : State)

/-- The critical section of `jk_aio_poll` (lines 62-72): test `aio.count`, read
the head `req`, set `aio.response = req->next`, decrement `aio.count`.  The
read of `req->next` comes before the test `if (!req)` of line 74, so a `NULL`
head is a fault here and that test can never succeed afterwards. -/
def poll_pop (s : State) : Pop :=
  if s.aio.count ≤ 0 then Pop.empty
  else
    match s.aio.response with
    | none => Pop.fault
    | some a =>
      match s.reqs a with
      | none => Pop.fault
      | some req =>
        Pop.item a { s with aio := { s.aio with response := req.next, count := s.aio.count - 1 } }

/-- The callback of the request at `a`, as a log entry, if it has one. -/
def callback (s : State) (a : Nat) : Option (Nat × Nat) :=
  match s.reqs a with
  | none => none
  | some req => req.finish.map (fun f => (f, a))

/-- The rest of one iteration of `jk_aio_poll` (lines 78-82): call
`req->finish(req)` when it is set, then `jk_aio_destory(req)`.  The callback is
recorded in the log; it is taken to leave the modelled state alone. -/
def poll_deliver (s : State) (a : Nat) : Option State :=
  match s.reqs a with
  | none => none
  | some req =>
    let s1 := match req.finish with
      | some f => { s with calls := s.calls ++ [(f, a)] }
      | none => s
    jk_aio_destory s1 (some a)

/-- Result of running a loop with a bound on the number of iterations. -/
inductive Outcome (α : Type) where
  | done (x : α)
  | fault
  | fuel

/-- The loop of `jk_aio_poll`, with `processed` as accumulator. -/
def jk_aio_poll_loop : Nat → State → Int → Outcome (Int × State)
  | 0, _, _ => Outcome.fuel
  | n + 1, s, processed =>
    match poll_pop s with
    | Pop.empty => Outcome.done (processed, s)
    | Pop.fault => Outcome.fault
    | Pop.item a s1 =>
      match poll_deliver s1 a with
      | none => Outcome.fault
      | some s2 => jk_aio_poll_loop n s2 (processed + 1)

/-- The function `jk_aio_poll`, run for at most `fuel` iterations. -/
def jk_aio_poll (fuel : Nat) (s : State) : Outcome (Int × State) :=
  jk_aio_poll_loop fuel s 0

/-! ## The completion queue as a list -/

/-- The chain predicate `Chain h p l`: following `next` links from `p` through live requests of the
heap `h` visits exactly the addresses `l`, in order, and ends at `NULL`. -/
def Chain (h : Nat → Option jk_aio_request_t) : Ptr → List Nat → Prop
  | none, [] => True
  | some a, b :: l =>
    a = b ∧ match h a with
      | some req => Chain h req.next l
      | none => False
  | none, _ :: _ => False
  | some _, [] => False

instance Chain.decide (h : Nat → Option jk_aio_request_t) :
    (p : Ptr) → (l : List Nat) → Decidable (Chain h p l)
  | none, [] => isTrue trivial
  | none, _ :: _ => isFalse (fun x => x)
  | some _, [] => isFalse (fun x => x)
  | some a, b :: l =>
    match hh : h a with
    | none => isFalse (by simp [Chain, hh])
    | some req =>
      match Chain.decide h req.next l with
      | isTrue hc =>
        if hab : a = b then isTrue (by subst hab; simp [Chain, hh, hc])
        else isFalse (by simp [Chain, hab])
      | isFalse hc => isFalse (by simp [Chain, hh, hc])

/-- The queue invariant: `aio.count` is the number of requests reachable from
`aio.response` through `next` links. -/
def CountOk (s : State) : Prop :=
  ∃ l, Chain s.reqs s.aio.response l ∧ s.aio.count = (l.length : Int)


/-! ## The queue protocol as a transition system -/

/-- A state of the program together with its history: the requests passed to
Finish so far, the requests a poller has unlinked but not yet destroyed, and
the requests delivered (called back and destroyed), each oldest first. -/
structure Config where
  st : State
  finished : List Nat
  held : List Nat
  delivered : List Nat

/-- The state `s0` is what a successful `jk_aio_init` leaves. -/
def Booted (s0 : State) : Prop :=
  ∃ (mutex_ret : Int) (pool_new : Int → Ptr) (workers : Int) (s : State),
    jk_aio_init mutex_ret pool_new workers s = (0, s0)

/-- The request `a` is not on the completion queue of `s`. -/
def NotQueued (s : State) (a : Nat) : Prop :=
  ∀ l, Chain s.reqs s.aio.response l → a ∉ l

/-- Atomic steps, at the grain of the lock: the push of `jk_aio_fininsh` (for a
request that is neither queued, nor held by a poller, nor delivered), the
critical section of `jk_aio_poll`, and the callback-and-destroy part of
`jk_aio_poll` for a request unlinked earlier. -/
inductive Step : Config → Config → Prop where
  | finish (c : Config) (a : Nat) (s' : State) :
      NotQueued c.st a → a ∉ c.held → a ∉ c.delivered →
      jk_aio_fininsh c.st (some a) = some s' →
      Step c { c with st := s', finished := c.finished ++ [a] }
  | pop (c : Config) (a : Nat) (s' : State) :
      poll_pop c.st = Pop.item a s' →
      Step c { c with st := s', held := a :: c.held }
  | deliver (c : Config) (a : Nat) (s' : State) :
      a ∈ c.held → poll_deliver c.st a = some s' →
      Step c { c with st := s', held := c.held.erase a, delivered := c.delivered ++ [a] }

/-- Configurations reachable from the state `s0` left by `jk_aio_init`. -/
inductive Reach (s0 : State) : Config → Prop where
  | init : Booted s0 → Reach s0 ⟨s0, [], [], []⟩
  | step {c c' : Config} : Reach s0 c → Step c c' → Reach s0 c'

/-- Coarser steps, where a poller unlinks, calls back and destroys a request in
one go: the push of `jk_aio_fininsh` (for a request neither queued nor
delivered) and one full iteration of the loop of `jk_aio_poll`. -/
inductive DrainStep : Config → Config → Prop where
  | finish (c : Config) (a : Nat) (s' : State) :
      NotQueued c.st a → a ∉ c.delivered →
      jk_aio_fininsh c.st (some a) = some s' →
      DrainStep c { c with st := s', finished := c.finished ++ [a] }
  | popDeliver (c : Config) (a : Nat) (s1 s2 : State) :
      poll_pop c.st = Pop.item a s1 → poll_deliver s1 a = some s2 →
      DrainStep c { c with st := s2, delivered := c.delivered ++ [a] }

/-- Configurations reachable from `s0` by the coarser steps. -/
inductive DrainReach (s0 : State) : Config → Prop where
  | init : Booted s0 → DrainReach s0 ⟨s0, [], [], []⟩
  | step {c c' : Config} : DrainReach s0 c → DrainStep c c' → DrainReach s0 c'


/-! ## Predicates used in the results -/

/-- The relation `Drained s l s'`: `s'` is `s` after the requests `l` have been popped,
called back and destroyed in that order, the queue being empty afterwards. -/
def Drained (s : State) (l : List Nat) (s' : State) : Prop :=
  s'.aio.response = none ∧ s'.aio.count = 0 ∧ s'.aio.lock = s.aio.lock ∧
  s'.worker_pool = s.worker_pool ∧ s'.pushed = s.pushed ∧
  s'.calls = s.calls ++ l.filterMap (callback s) ∧
  s'.freed = s.freed ++ l ∧
  (∀ b, b ∈ l → s'.reqs b = none) ∧ (∀ b, b ∉ l → s'.reqs b = s.reqs b)

/-- The invariant carried along the fine-grained steps: the queue is a chain of
`aio.count` requests, none of which a poller holds. -/
def QueueInv (c : Config) : Prop :=
  ∃ q, Chain c.st.reqs c.st.aio.response q ∧ c.st.aio.count = (q.length : Int) ∧
    ∀ a ∈ c.held, a ∉ q

/-- The path copy owned by the request at `a`, if the request is live and has
one (`req->path`). -/
def pathOf (s : State) (a : Nat) : Option Nat :=
  match s.reqs a with
  | none => none
  | some req => req.path

/-- Among the requests `l`, no two share a path copy: each copy was made by
`strdup` for one request. -/
def PathsOwned (s0 : State) (l : List Nat) : Prop :=
  ∀ a ∈ l, ∀ b ∈ l, ∀ p, pathOf s0 a = some p → pathOf s0 b = some p → a = b

/-- What the state `st` records about the delivered requests `dl`, relative to
the state `s0` left by init: since then `free` was called on exactly these
requests in order, the callbacks called are exactly theirs in order, `free`
was called on exactly their path copies in order; the requests are no longer
allocated, their path copies neither, and every other string is as it was. -/
def DrainLogs (s0 st : State) (dl : List Nat) : Prop :=
  st.freed = s0.freed ++ dl ∧
  st.calls = s0.calls ++ dl.filterMap (callback s0) ∧
  st.freedPaths = s0.freedPaths ++ dl.filterMap (pathOf s0) ∧
  (∀ a ∈ dl, st.reqs a = none) ∧
  (∀ a ∈ dl, ∀ p, pathOf s0 a = some p → st.strs p = none) ∧
  (∀ p, (∀ a ∈ dl, pathOf s0 a ≠ some p) → st.strs p = s0.strs p)

/-- Each of the delivered requests `dl` was popped, called back and destroyed
exactly once: `DrainLogs` holds, each request occurs once in `dl` (hence once
in the `free` log), the callback log holds for it its callback once (nothing
if it has none), and, the path copies being owned by one request each, every
path copy occurs once in the log of freed paths. -/
def DeliveredOnce (s0 st : State) (dl : List Nat) : Prop :=
  DrainLogs s0 st dl ∧
  (∀ a ∈ dl, dl.count a = 1 ∧
    (dl.filterMap (callback s0)).filter (fun x => decide (x.2 = a)) =
      (callback s0 a).toList) ∧
  (PathsOwned s0 dl → ∀ a ∈ dl, ∀ p, pathOf s0 a = some p →
    (dl.filterMap (pathOf s0)).count p = 1)

/-- The invariant carried along the coarse steps: every finished request is
either on the queue or delivered, never both and never twice; the logs and the
heap record the delivered requests as `DrainLogs` says; requests not yet
delivered keep their callback and their path copy. -/
def DrainInv (s0 : State) (c : Config) : Prop :=
  ∃ q, Chain c.st.reqs c.st.aio.response q ∧ c.st.aio.count = (q.length : Int) ∧
    c.finished.Perm (q ++ c.delivered) ∧ (q ++ c.delivered).Nodup ∧
    DrainLogs s0 c.st c.delivered ∧
    (∀ b, b ∉ c.delivered → callback c.st b = callback s0 b ∧ pathOf c.st b = pathOf s0 b)

/-! ## Concrete instances -/

/-- One admissible numbering of the six operation kinds. -/
def codes : OpCodes :=
  { jk_aio_operate_read := 0, jk_aio_operate_write := 1, jk_aio_operate_close := 2,
    jk_aio_operate_open := 3, jk_aio_operate_mkdir := 4, jk_aio_operate_rmdir := 5 }

/-- A program state before `jk_aio_init`: three executed requests A, B, C at
addresses 1, 2, 3 with callbacks 11, 12, 13, and a caller string at address
20. -/
def heap0 : State :=
  { aio := { lock := LockState.uninit, response := none, count := 0 }
    worker_pool := none
    reqs := fun a => if a = 1 ∨ a = 2 ∨ a = 3 then some (blank 0 (some (10 + a))) else none
    strs := fun a => if a = 20 then some "/tmp/d" else none
    pushed := []
    calls := []
    freed := []
    freedPaths := [] }

/-- The state `heap0` after a successful `jk_aio_init`. -/
def boot0 : State :=
  (jk_aio_init 0 (fun _ => some 100) 4 heap0).2

/-- The state `boot0` after Finish has run on A. -/
def queued1 : State :=
  (jk_aio_fininsh boot0 (some 1)).getD boot0

/-- The state `boot0` after Finish has run on A, B, C in that order. -/
def queued3 : State :=
  (finishAll boot0 [1, 2, 3]).getD boot0

/-- System calls of a toy environment that counts the calls made: `read` and
`write` transfer `size` bytes, `open_` yields descriptor 3, the others 0, and
an invalid path gives -1. -/
def toySys : Syscalls Nat :=
  { read := fun w _ _ size => (size, w + 1)
    write := fun w _ _ size => (size, w + 1)
    close := fun w _ => (0, w + 1)
    open_ := fun w p _ _ => (if p.isSome then 3 else -1, w + 1)
    mkdir := fun w p _ => (if p.isSome then 0 else -1, w + 1)
    rmdir := fun w p => (if p.isSome then 0 else -1, w + 1) }


/-- The state `heap0` after `jk_aio_open` has built a request at address 5 for
the caller string at 20, its path copy at address 21, callback 15. -/
def heapP : State :=
  ((jk_aio_open codes ⟨some 5, some 21, 0⟩ heap0 (some 20) 0 420 (some 15)).map
    (fun r => r.2)).getD heap0

/-- The state `heapP` after a successful `jk_aio_init`. -/
def bootP : State :=
  (jk_aio_init 0 (fun _ => some 100) 4 heapP).2

/-- The state `bootP` after Finish has run on A. -/
def queuedP1 : State :=
  (jk_aio_fininsh bootP (some 1)).getD bootP

/-- The state `bootP` after Finish has run on A and then on the open request. -/
def queuedP2 : State :=
  (jk_aio_fininsh queuedP1 (some 5)).getD bootP

/-- The state `queuedP2` after the critical section of `jk_aio_poll`. -/
def poppedP : State :=
  match poll_pop queuedP2 with
  | Pop.item _ s1 => s1
  | _ => queuedP2

/-- The state `queuedP2` after one iteration of the loop of `jk_aio_poll`,
which delivers the open request. -/
def drainedP : State :=
  match poll_pop queuedP2 with
  | Pop.item a s1 => (poll_deliver s1 a).getD queuedP2
  | _ => queuedP2

/-! ## Facts about `Chain` -/

theorem chain_nil {h : Nat → Option jk_aio_request_t} {p : Ptr} :
    Chain h p [] ↔ p = none := by
  cases p <;> simp [Chain]

theorem chain_cons {h : Nat → Option jk_aio_request_t} {p : Ptr} {a : Nat} {l : List Nat} :
    Chain h p (a :: l) ↔ p = some a ∧ ∃ req, h a = some req ∧ Chain h req.next l := by
  cases p with
  | none => simp [Chain]
  | some b =>
    simp only [Chain, Option.some.injEq]
    constructor
    · rintro ⟨rfl, hc⟩
      refine ⟨rfl, ?_⟩
      cases hb : h b with
      | none => simp [hb] at hc
      | some req => exact ⟨req, rfl, by simpa [hb] using hc⟩
    · rintro ⟨rfl, req, hb, hc⟩
      exact ⟨rfl, by simpa [hb] using hc⟩

/-- The list of a chain is determined by its head. -/
theorem chain_functional {h : Nat → Option jk_aio_request_t} :
    ∀ {l₁ l₂ : List Nat} {p : Ptr}, Chain h p l₁ → Chain h p l₂ → l₁ = l₂
  | [], [], _, _, _ => rfl
  | [], b :: l₂, p, h₁, h₂ => by
    rw [chain_nil] at h₁
    rw [chain_cons] at h₂
    rw [h₁] at h₂
    exact absurd h₂.1 (by simp)
  | a :: l₁, [], p, h₁, h₂ => by
    rw [chain_nil] at h₂
    rw [chain_cons] at h₁
    rw [h₂] at h₁
    exact absurd h₁.1 (by simp)
  | a :: l₁, b :: l₂, p, h₁, h₂ => by
    rw [chain_cons] at h₁ h₂
    obtain ⟨hp₁, r₁, hr₁, hc₁⟩ := h₁
    obtain ⟨hp₂, r₂, hr₂, hc₂⟩ := h₂
    have hab : a = b := by
      rw [hp₁] at hp₂
      exact Option.some.inj hp₂
    subst hab
    rw [hr₁] at hr₂
    cases hr₂
    rw [chain_functional hc₁ hc₂]

/-- From any member of a chain a chain starts that is no longer than the
whole. -/
theorem chain_from_mem {h : Nat → Option jk_aio_request_t} :
    ∀ {l : List Nat} {p : Ptr} {a : Nat}, Chain h p l → a ∈ l →
      ∃ l', Chain h (some a) l' ∧ l'.length ≤ l.length
  | [], _, _, _, ha => absurd ha (List.not_mem_nil _)
  | b :: l, p, a, hc, ha => by
    by_cases hab : a = b
    · subst hab
      have hp := (chain_cons.mp hc).1
      subst hp
      exact ⟨a :: l, hc, le_refl _⟩
    · have hal : a ∈ l := by
        rcases List.mem_cons.mp ha with h1 | h1
        · exact absurd h1 hab
        · exact h1
      obtain ⟨_, req, _, hc'⟩ := chain_cons.mp hc
      obtain ⟨l', hl', hlen⟩ := chain_from_mem hc' hal
      exact ⟨l', hl', by simp only [List.length_cons]; omega⟩

/-- A chain visits no request twice. -/
theorem chain_nodup {h : Nat → Option jk_aio_request_t} :
    ∀ {l : List Nat} {p : Ptr}, Chain h p l → l.Nodup
  | [], _, _ => List.nodup_nil
  | a :: l, p, hc => by
    obtain ⟨hp, req, hreq, hc'⟩ := chain_cons.mp hc
    subst hp
    refine List.nodup_cons.mpr ⟨?_, chain_nodup hc'⟩
    intro hal
    obtain ⟨l', hl', hlen⟩ := chain_from_mem hc' hal
    have := chain_functional hc hl'
    subst this
    simp only [List.length_cons] at hlen
    omega

/-- A chain only depends on the `next` fields of the requests on it. -/
theorem chain_congr {h h' : Nat → Option jk_aio_request_t} :
    ∀ {l : List Nat} {p : Ptr},
      (∀ a ∈ l, (h' a).map (fun r => r.next) = (h a).map (fun r => r.next)) →
      Chain h p l → Chain h' p l
  | [], _, _, hc => by
    rw [chain_nil] at hc ⊢
    exact hc
  | a :: l, p, hagree, hc => by
    obtain ⟨hp, req, hreq, hc'⟩ := chain_cons.mp hc
    have ha := hagree a (List.mem_cons_self _ _)
    rw [hreq] at ha
    cases hr' : h' a with
    | none => simp [hr'] at ha
    | some req' =>
      simp only [hr', Option.map_some', Option.some.injEq] at ha
      refine chain_cons.mpr ⟨hp, req', hr', ?_⟩
      rw [ha]
      exact chain_congr (fun b hb => hagree b (List.mem_cons_of_mem _ hb)) hc'

/-- Changing the heap at an address off the chain keeps the chain. -/
theorem chain_update {h : Nat → Option jk_aio_request_t} {l : List Nat} {p : Ptr}
    {a : Nat} (v : Option jk_aio_request_t) (ha : a ∉ l) (hc : Chain h p l) :
    Chain (Function.update h a v) p l := by
  refine chain_congr (fun b hb => ?_) hc
  have hba : b ≠ a := fun e => ha (e ▸ hb)
  rw [Function.update_noteq hba]

/-- Every request on a chain is live. -/
theorem chain_live {h : Nat → Option jk_aio_request_t} :
    ∀ {l : List Nat} {p : Ptr} {a : Nat}, Chain h p l → a ∈ l → ∃ req, h a = some req
  | [], _, _, _, ha => absurd ha (List.not_mem_nil _)
  | b :: l, p, a, hc, ha => by
    obtain ⟨_, req, hreq, hc'⟩ := chain_cons.mp hc
    rcases List.mem_cons.mp ha with h1 | h1
    · subst h1
      exact ⟨req, hreq⟩
    · exact chain_live hc' h1


/-! ## One push, one pop, one delivery -/

/-- Effect of `jk_aio_fininsh` on a live request. -/
theorem fininsh_eq {s : State} {a : Nat} {req : jk_aio_request_t}
    (hreq : s.reqs a = some req) :
    jk_aio_fininsh s (some a) = some
      { s with
        reqs := Function.update s.reqs a (some { req with next := s.aio.response })
        aio := { s.aio with response := some a, count := s.aio.count + 1 } } := by
  simp [jk_aio_fininsh, hreq, State.store]

/-- Pushing a request that is not on the chain extends the chain. -/
theorem chain_push {h : Nat → Option jk_aio_request_t} {p : Ptr} {l : List Nat}
    {a : Nat} (req : jk_aio_request_t) (hc : Chain h p l) (ha : a ∉ l) :
    Chain (Function.update h a (some { req with next := p })) (some a) (a :: l) := by
  refine chain_cons.mpr ⟨rfl, { req with next := p }, by simp, ?_⟩
  exact chain_update _ ha hc

/-- Effect of the critical section of `jk_aio_poll` on a non-empty queue. -/
theorem poll_pop_eq {s : State} {a : Nat} {req : jk_aio_request_t}
    (hpos : 0 < s.aio.count) (hhead : s.aio.response = some a)
    (hreq : s.reqs a = some req) :
    poll_pop s = Pop.item a
      { s with aio := { s.aio with response := req.next, count := s.aio.count - 1 } } := by
  have : ¬ s.aio.count ≤ 0 := by omega
  simp [poll_pop, this, hhead, hreq]

/-- What one delivery (callback and destruction) of the live request `a` does. -/
theorem poll_deliver_spec {s : State} {a : Nat} {req : jk_aio_request_t}
    (hreq : s.reqs a = some req) :
    ∃ s', poll_deliver s a = some s' ∧
      s'.aio = s.aio ∧ s'.worker_pool = s.worker_pool ∧ s'.pushed = s.pushed ∧
      s'.reqs = Function.update s.reqs a none ∧
      s'.calls = s.calls ++ (callback s a).toList ∧
      s'.freed = s.freed ++ [a] ∧
      s'.freedPaths = s.freedPaths ++ req.path.toList ∧
      (∀ q, some q ≠ req.path → s'.strs q = s.strs q) := by
  cases hf : req.finish <;> cases hp : req.path <;>
    simp [poll_deliver, hreq, hf, hp, jk_aio_destory, free_req, free_str, callback]
  · intro q hq
    rw [Function.update_noteq hq]
  · intro q hq
    rw [Function.update_noteq hq]

/-- One iteration of the loop of `jk_aio_poll` on a queue `a :: l`. -/
theorem poll_iteration {s : State} {a : Nat} {l : List Nat}
    (hc : Chain s.reqs s.aio.response (a :: l))
    (hn : s.aio.count = ((a :: l).length : Int)) :
    ∃ s1 s2, poll_pop s = Pop.item a s1 ∧ poll_deliver s1 a = some s2 ∧
      Chain s2.reqs s2.aio.response l ∧ s2.aio.count = (l.length : Int) ∧
      s2.aio.lock = s.aio.lock ∧ s2.worker_pool = s.worker_pool ∧
      s2.pushed = s.pushed ∧
      s2.reqs = Function.update s.reqs a none ∧
      s2.calls = s.calls ++ (callback s a).toList ∧
      s2.freed = s.freed ++ [a] := by
  obtain ⟨hhead, req, hreq, hc'⟩ := chain_cons.mp hc
  have hnd := chain_nodup hc
  have hal : a ∉ l := (List.nodup_cons.mp hnd).1
  have hpos : 0 < s.aio.count := by
    rw [hn]; simp only [List.length_cons]; omega
  let s1 : State :=
    { s with aio := { s.aio with response := req.next, count := s.aio.count - 1 } }
  have hreq1 : s1.reqs a = some req := hreq
  obtain ⟨s2, hd, haio, hwp, hpu, hreqs, hcalls, hfreed, _, _⟩ := poll_deliver_spec hreq1
  refine ⟨s1, s2, poll_pop_eq hpos hhead hreq, hd, ?_, ?_, ?_, hwp, hpu, hreqs, ?_, hfreed⟩
  · rw [hreqs, haio]
    exact chain_update none hal hc'
  · rw [haio]
    show s.aio.count - 1 = _
    rw [hn]; simp only [List.length_cons]; push_cast; omega
  · rw [haio]
  · rw [hcalls]
    rfl


/-! ## The whole drain -/

theorem callback_congr {s s' : State} {b : Nat} (h : s'.reqs b = s.reqs b) :
    callback s' b = callback s b := by
  simp [callback, h]

/-- On an empty queue the loop returns at once, with the state as it was. -/
theorem poll_loop_empty (n : Nat) (s : State) (processed : Int)
    (h0 : s.aio.count ≤ 0) :
    jk_aio_poll_loop (n + 1) s processed = Outcome.done (processed, s) := by
  simp [jk_aio_poll_loop, poll_pop, h0]

/-- The loop of `jk_aio_poll` on a well-formed queue `l`: with more fuel than
requests it returns, having processed all of `l` in order. -/
theorem poll_loop_drains :
    ∀ (l : List Nat) (s : State) (n : Nat) (processed : Int),
      Chain s.reqs s.aio.response l → s.aio.count = (l.length : Int) → l.length < n →
      ∃ s', jk_aio_poll_loop n s processed = Outcome.done (processed + l.length, s') ∧
        Drained s l s' ∧ (l = [] → s' = s)
  | [], s, n, processed, hc, hn, hlt => by
    obtain ⟨m, rfl⟩ : ∃ m, n = m + 1 := ⟨n - 1, by simp at hlt; omega⟩
    refine ⟨s, ?_, ?_, fun _ => rfl⟩
    · rw [poll_loop_empty m s processed (by rw [hn]; simp)]
      simp
    · exact ⟨chain_nil.mp hc, by simpa using hn, rfl, rfl, rfl, by simp, by simp,
        fun b hb => absurd hb (List.not_mem_nil _), fun _ _ => rfl⟩
  | a :: l, s, n, processed, hc, hn, hlt => by
    obtain ⟨m, rfl⟩ : ∃ m, n = m + 1 := ⟨n - 1, by simp at hlt; omega⟩
    have hal : a ∉ l := (List.nodup_cons.mp (chain_nodup hc)).1
    obtain ⟨s1, s2, hpop, hdel, hc2, hn2, hlock, hwp, hpu, hreqs, hcalls, hfreed⟩ :=
      poll_iteration hc hn
    have hlt2 : l.length < m := by simp only [List.length_cons] at hlt; omega
    obtain ⟨s', hrun, hdr, _⟩ := poll_loop_drains l s2 m (processed + 1) hc2 hn2 hlt2
    obtain ⟨d1, d2, d3, d4, d5, d6, d7, d8, d9⟩ := hdr
    have hsame : ∀ b ∈ l, s2.reqs b = s.reqs b := by
      intro b hb
      have hba : b ≠ a := fun e => hal (e ▸ hb)
      rw [hreqs, Function.update_noteq hba]
    refine ⟨s', ?_, ?_, fun h => absurd h (List.cons_ne_nil _ _)⟩
    · simp only [jk_aio_poll_loop, hpop, hdel, hrun, List.length_cons]
      congr 2
      push_cast
      ring
    · refine ⟨d1, d2, d3.trans hlock, d4.trans hwp, d5.trans hpu, ?_, ?_, ?_, ?_⟩
      · rw [d6, hcalls, List.filterMap_cons, List.append_assoc]
        have hfm : l.filterMap (callback s2) = l.filterMap (callback s) :=
          List.filterMap_congr (fun b hb => callback_congr (hsame b hb))
        rw [hfm]
        cases callback s a <;> simp
      · rw [d7, hfreed, List.append_assoc]
        rfl
      · intro b hb
        rcases List.mem_cons.mp hb with h1 | h1
        · subst h1
          by_cases hbl : b ∈ l
          · exact d8 b hbl
          · rw [d9 b hbl, hreqs]
            simp
        · exact d8 b h1
      · intro b hb
        have hba : b ≠ a := fun e => hb (e ▸ List.mem_cons_self _ _)
        have hbl : b ∉ l := fun e => hb (List.mem_cons_of_mem _ e)
        rw [d9 b hbl, hreqs, Function.update_noteq hba]


/-! ## Invariants of the transition system -/

theorem booted_empty {s0 : State} (hb : Booted s0) :
    s0.aio.response = none ∧ s0.aio.count = 0 := by
  obtain ⟨mutex_ret, pool_new, workers, s, h⟩ := hb
  unfold jk_aio_init at h
  by_cases h1 : mutex_ret = -1
  · simp [h1] at h
  · by_cases h2 : pool_new workers = none
    · simp [h1, h2] at h
    · simp only [h1, h2, if_false, Prod.mk.injEq, true_and] at h
      subst h
      exact ⟨rfl, rfl⟩

theorem countOk_of_empty {s : State} (h : s.aio.response = none ∧ s.aio.count = 0) :
    CountOk s :=
  ⟨[], chain_nil.mpr h.1, by simpa using h.2⟩

/-- Inversion of the critical section of `jk_aio_poll`. -/
theorem poll_pop_item {s s' : State} {a : Nat} (h : poll_pop s = Pop.item a s') :
    0 < s.aio.count ∧ s.aio.response = some a ∧ ∃ req, s.reqs a = some req ∧
      s' = { s with aio := { s.aio with response := req.next, count := s.aio.count - 1 } } := by
  unfold poll_pop at h
  by_cases h0 : s.aio.count ≤ 0
  · simp [h0] at h
  · cases hr : s.aio.response with
    | none => simp [h0, hr] at h
    | some b =>
      cases hb : s.reqs b with
      | none => simp [h0, hr, hb] at h
      | some req =>
        simp only [h0, hr, hb, if_false, Pop.item.injEq] at h
        obtain ⟨rfl, rfl⟩ := h
        exact ⟨by omega, rfl, req, hb, rfl⟩

/-- Inversion of `jk_aio_fininsh`. -/
theorem fininsh_some {s s' : State} {a : Nat} (h : jk_aio_fininsh s (some a) = some s') :
    ∃ req, s.reqs a = some req ∧ s' =
      { s with
        reqs := Function.update s.reqs a (some { req with next := s.aio.response })
        aio := { s.aio with response := some a, count := s.aio.count + 1 } } := by
  cases hr : s.reqs a with
  | none => simp [jk_aio_fininsh, hr] at h
  | some req =>
    rw [fininsh_eq hr] at h
    exact ⟨req, rfl, (Option.some.inj h).symm⟩

/-- Inversion of the delivery part of `jk_aio_poll`. -/
theorem poll_deliver_some {s s' : State} {a : Nat} (h : poll_deliver s a = some s') :
    s'.aio = s.aio ∧ s'.reqs = Function.update s.reqs a none ∧
      s'.calls = s.calls ++ (callback s a).toList ∧ s'.freed = s.freed ++ [a] := by
  cases hr : s.reqs a with
  | none => simp [poll_deliver, hr] at h
  | some req =>
    obtain ⟨s2, hd, h1, _, _, h4, h5, h6, _, _⟩ := poll_deliver_spec hr
    rw [hd] at h
    cases h
    exact ⟨h1, h4, h5, h6⟩

theorem queueInv_step {c c' : Config} (hi : QueueInv c) (hs : Step c c') : QueueInv c' := by
  obtain ⟨q, hc, hn, hheld⟩ := hi
  cases hs with
  | finish a s' hnq hh hd hf =>
    obtain ⟨req, hreq, rfl⟩ := fininsh_some hf
    have haq : a ∉ q := hnq q hc
    refine ⟨a :: q, chain_push req hc haq, ?_, ?_⟩
    · show c.st.aio.count + 1 = _
      rw [hn]; simp
    · intro b hb hbq
      rcases List.mem_cons.mp hbq with h1 | h1
      · exact hh (h1 ▸ hb)
      · exact hheld b hb h1
  | pop a s' hp =>
    obtain ⟨hpos, hhead, req, hreq, rfl⟩ := poll_pop_item hp
    cases q with
    | nil =>
      rw [chain_nil] at hc
      rw [hc] at hhead
      cases hhead
    | cons b l =>
      obtain ⟨hb, req', hreq', hc'⟩ := chain_cons.mp hc
      rw [hhead] at hb
      cases hb
      rw [hreq] at hreq'
      cases hreq'
      have hal : a ∉ l := (List.nodup_cons.mp (chain_nodup hc)).1
      refine ⟨l, hc', ?_, ?_⟩
      · show c.st.aio.count - 1 = _
        rw [hn]; simp
      · intro x hx hxl
        rcases List.mem_cons.mp hx with h1 | h1
        · exact hal (h1 ▸ hxl)
        · exact hheld x h1 (List.mem_cons_of_mem _ hxl)
  | deliver a s' hmem hd =>
    obtain ⟨haio, hreqs, _, _⟩ := poll_deliver_some hd
    refine ⟨q, ?_, ?_, ?_⟩
    · show Chain s'.reqs s'.aio.response q
      rw [hreqs, haio]
      exact chain_update none (hheld a hmem) hc
    · show s'.aio.count = _
      rw [haio]; exact hn
    · intro x hx
      exact hheld x (List.mem_of_mem_erase hx)

theorem queueInv_reach {s0 : State} {c : Config} (hr : Reach s0 c) : QueueInv c := by
  induction hr with
  | init hb =>
    obtain ⟨h1, h2⟩ := booted_empty hb
    exact ⟨[], chain_nil.mpr h1, by simpa using h2, fun a ha => absurd ha (List.not_mem_nil _)⟩
  | step _ hs ih => exact queueInv_step ih hs


theorem filterMap_singleton_toList {α β : Type} (f : α → Option β) (a : α) :
    [a].filterMap f = (f a).toList := by
  cases h : f a <;> simp [List.filterMap_cons, h]

/-- What one delivery does to the path copy of the request. -/
theorem poll_deliver_paths {s s' : State} {a : Nat} (h : poll_deliver s a = some s') :
    s'.freedPaths = s.freedPaths ++ (pathOf s a).toList ∧
      (∀ p, pathOf s a = some p → s'.strs p = none) ∧
      (∀ q, pathOf s a ≠ some q → s'.strs q = s.strs q) := by
  cases hr : s.reqs a with
  | none => simp [poll_deliver, hr] at h
  | some req =>
    have hpo : pathOf s a = req.path := by simp [pathOf, hr]
    obtain ⟨s2, hd, _, _, _, _, _, _, h7, h8⟩ := poll_deliver_spec hr
    rw [hd] at h
    cases h
    rw [hpo]
    refine ⟨h7, ?_, fun q hq => h8 q (fun e => hq e.symm)⟩
    intro p hp
    cases hf : req.finish <;>
      simp [poll_deliver, hr, hf, hp, jk_aio_destory, free_req, free_str] at hd <;>
      rw [← hd] <;> simp

theorem drainInv_step {s0 : State} {c c' : Config} (hi : DrainInv s0 c)
    (hs : DrainStep c c') : DrainInv s0 c' := by
  obtain ⟨q, hc, hn, hperm, hnd, ⟨hfreed, hcalls, hfp, hgone, hpgone, hstrs⟩, hcb⟩ := hi
  cases hs with
  | finish a s' hnq hd hf =>
    obtain ⟨req, hreq, rfl⟩ := fininsh_some hf
    have haq : a ∉ q := hnq q hc
    refine ⟨a :: q, chain_push req hc haq, ?_, ?_, ?_,
      ⟨hfreed, hcalls, hfp, ?_, hpgone, hstrs⟩, ?_⟩
    · show c.st.aio.count + 1 = _
      rw [hn]; simp
    · show (c.finished ++ [a]).Perm (a :: q ++ c.delivered)
      exact (List.perm_append_singleton a c.finished).trans (List.Perm.cons a hperm)
    · show (a :: q ++ c.delivered).Nodup
      rw [List.cons_append, List.nodup_cons]
      exact ⟨by simp [haq, hd], hnd⟩
    · intro b hb
      have hba : b ≠ a := fun e => hd (e ▸ hb)
      show Function.update c.st.reqs a _ b = none
      rw [Function.update_noteq hba]
      exact hgone b hb
    · intro b hb
      rw [← (hcb b hb).1, ← (hcb b hb).2]
      by_cases hba : b = a
      · subst hba
        simp [callback, pathOf, hreq]
      · simp [callback, pathOf, Function.update_noteq hba]
  | popDeliver a s1 s2 hp hdel =>
    obtain ⟨hpos, hhead, req, hreq, rfl⟩ := poll_pop_item hp
    obtain ⟨haio, hreqs, hcl, hfr⟩ := poll_deliver_some hdel
    obtain ⟨hfp2, hpn, hpk⟩ := poll_deliver_paths hdel
    cases q with
    | nil =>
      rw [chain_nil] at hc
      rw [hc] at hhead
      cases hhead
    | cons b l =>
      obtain ⟨hb, req', hreq', hc'⟩ := chain_cons.mp hc
      rw [hhead] at hb
      cases hb
      rw [hreq] at hreq'
      cases hreq'
      have hnd' : a ∉ l ++ c.delivered ∧ (l ++ c.delivered).Nodup := by
        rw [List.cons_append] at hnd
        exact List.nodup_cons.mp hnd
      have hal : a ∉ l := fun h => hnd'.1 (List.mem_append_left _ h)
      have had : a ∉ c.delivered := fun h => hnd'.1 (List.mem_append_right _ h)
      have hpa : pathOf c.st a = pathOf s0 a := (hcb a had).2
      have hfp3 : s2.freedPaths = c.st.freedPaths ++ (pathOf c.st a).toList := hfp2
      have hpn3 : ∀ p, pathOf c.st a = some p → s2.strs p = none := hpn
      have hpk3 : ∀ p, pathOf c.st a ≠ some p → s2.strs p = c.st.strs p := hpk
      refine ⟨l, ?_, ?_, ?_, ?_, ⟨?_, ?_, ?_, ?_, ?_, ?_⟩, ?_⟩
      · show Chain s2.reqs s2.aio.response l
        rw [hreqs, haio]
        exact chain_update none hal hc'
      · show s2.aio.count = _
        rw [haio]
        show c.st.aio.count - 1 = _
        rw [hn]; simp
      · show c.finished.Perm (l ++ (c.delivered ++ [a]))
        refine hperm.trans ?_
        rw [← List.append_assoc]
        exact (List.perm_append_singleton a (l ++ c.delivered)).symm
      · show (l ++ (c.delivered ++ [a])).Nodup
        rw [← List.append_assoc]
        exact (List.perm_append_singleton a (l ++ c.delivered)).nodup_iff.mpr
          (List.nodup_cons.mpr hnd')
      · show s2.freed = s0.freed ++ (c.delivered ++ [a])
        rw [hfr, ← List.append_assoc]
        show c.st.freed ++ [a] = _
        rw [hfreed]
      · show s2.calls = s0.calls ++ (c.delivered ++ [a]).filterMap (callback s0)
        rw [hcl, List.filterMap_append, filterMap_singleton_toList, ← List.append_assoc]
        show c.st.calls ++ (callback c.st a).toList = _
        rw [hcalls, (hcb a had).1]
      · show s2.freedPaths = s0.freedPaths ++ (c.delivered ++ [a]).filterMap (pathOf s0)
        rw [hfp3, hpa, List.filterMap_append, filterMap_singleton_toList,
          ← List.append_assoc, hfp]
      · intro x hx
        show s2.reqs x = none
        rw [hreqs]
        by_cases hxa : x = a
        · subst hxa
          exact Function.update_same _ _ _
        · rw [Function.update_noteq hxa]
          rcases List.mem_append.mp hx with h1 | h1
          · exact hgone x h1
          · exact absurd (List.mem_singleton.mp h1) hxa
      · intro x hx p hxp
        show s2.strs p = none
        by_cases hap : pathOf s0 a = some p
        · exact hpn3 p (hpa.trans hap)
        · rw [hpk3 p (fun e => hap (hpa.symm.trans e))]
          rcases List.mem_append.mp hx with h1 | h1
          · exact hpgone x h1 p hxp
          · rw [List.mem_singleton.mp h1] at hxp
            exact absurd hxp hap
      · intro p hp
        show s2.strs p = s0.strs p
        have hap : pathOf s0 a ≠ some p := hp a (List.mem_append_right _ (by simp))
        rw [hpk3 p (fun e => hap (hpa.symm.trans e))]
        exact hstrs p (fun x hx => hp x (List.mem_append_left _ hx))
      · intro x hx
        have hxd : x ∉ c.delivered := fun h => hx (List.mem_append_left _ h)
        have hxa : x ≠ a := fun h => hx (List.mem_append_right _ (by simp [h]))
        rw [← (hcb x hxd).1, ← (hcb x hxd).2]
        simp [callback, pathOf, hreqs, Function.update_noteq hxa]

theorem drainInv_reach {s0 : State} {c : Config} (hr : DrainReach s0 c) : DrainInv s0 c := by
  induction hr with
  | init hb =>
    obtain ⟨h1, h2⟩ := booted_empty hb
    refine ⟨[], chain_nil.mpr h1, by simpa using h2, by simp, by simp,
      ⟨by simp, by simp, by simp, ?_, ?_, fun _ _ => rfl⟩, fun _ _ => ⟨rfl, rfl⟩⟩
    · intro a ha
      exact absurd ha (List.not_mem_nil _)
    · intro a ha
      exact absurd ha (List.not_mem_nil _)
  | step _ hs ih => exact drainInv_step ih hs

/-- A run of the loop of `jk_aio_poll` is a sequence of pop-and-deliver steps:
from a reachable configuration with queue `q` it returns, with enough fuel, in
a reachable configuration where `q` has been delivered in order. -/
theorem poll_loop_steps (s0 : State) :
    ∀ (q : List Nat) (c : Config) (n : Nat) (processed : Int),
      DrainReach s0 c → Chain c.st.reqs c.st.aio.response q →
      c.st.aio.count = (q.length : Int) → q.length < n →
      ∃ c', DrainReach s0 c' ∧
        jk_aio_poll_loop n c.st processed = Outcome.done (processed + q.length, c'.st) ∧
        c'.finished = c.finished ∧ c'.delivered = c.delivered ++ q ∧
        c'.st.aio.response = none ∧ c'.st.aio.count = 0
  | [], c, n, processed, hr, hc, hn, hlt => by
    obtain ⟨m, rfl⟩ : ∃ m, n = m + 1 := ⟨n - 1, by simp at hlt; omega⟩
    refine ⟨c, hr, ?_, rfl, by simp, chain_nil.mp hc, by simpa using hn⟩
    rw [poll_loop_empty m c.st processed (by rw [hn]; simp)]
    simp
  | a :: l, c, n, processed, hr, hc, hn, hlt => by
    obtain ⟨m, rfl⟩ : ∃ m, n = m + 1 := ⟨n - 1, by simp at hlt; omega⟩
    obtain ⟨s1, s2, hpop, hdel, hc2, hn2, _⟩ := poll_iteration hc hn
    have hlt2 : l.length < m := by simp only [List.length_cons] at hlt; omega
    have hr2 : DrainReach s0 { c with st := s2, delivered := c.delivered ++ [a] } :=
      DrainReach.step hr (DrainStep.popDeliver c a s1 s2 hpop hdel)
    obtain ⟨c', hr', hrun, hfin, hdl, h1, h2⟩ :=
      poll_loop_steps s0 l { c with st := s2, delivered := c.delivered ++ [a] } m
        (processed + 1) hr2 hc2 hn2 hlt2
    refine ⟨c', hr', ?_, hfin, ?_, h1, h2⟩
    · simp only [jk_aio_poll_loop, hpop, hdel]
      rw [hrun]
      simp only [List.length_cons]
      congr 2
      push_cast
      ring
    · rw [hdl]
      simp

/-! ## Results -/

theorem distinct_ne {k : OpCodes} (hk : k.Distinct) :
    k.jk_aio_operate_read ≠ k.jk_aio_operate_write ∧
    k.jk_aio_operate_read ≠ k.jk_aio_operate_close ∧
    k.jk_aio_operate_read ≠ k.jk_aio_operate_open ∧
    k.jk_aio_operate_read ≠ k.jk_aio_operate_mkdir ∧
    k.jk_aio_operate_read ≠ k.jk_aio_operate_rmdir ∧
    k.jk_aio_operate_write ≠ k.jk_aio_operate_close ∧
    k.jk_aio_operate_write ≠ k.jk_aio_operate_open ∧
    k.jk_aio_operate_write ≠ k.jk_aio_operate_mkdir ∧
    k.jk_aio_operate_write ≠ k.jk_aio_operate_rmdir ∧
    k.jk_aio_operate_close ≠ k.jk_aio_operate_open ∧
    k.jk_aio_operate_close ≠ k.jk_aio_operate_mkdir ∧
    k.jk_aio_operate_close ≠ k.jk_aio_operate_rmdir ∧
    k.jk_aio_operate_open ≠ k.jk_aio_operate_mkdir ∧
    k.jk_aio_operate_open ≠ k.jk_aio_operate_rmdir ∧
    k.jk_aio_operate_mkdir ≠ k.jk_aio_operate_rmdir := by
  simp only [OpCodes.Distinct, List.nodup_cons, List.mem_cons, List.mem_singleton,
    not_or, List.not_mem_nil, not_false_eq_true, List.nodup_nil, and_true] at hk
  obtain ⟨⟨h1, h2, h3, h4, h5⟩, ⟨h6, h7, h8, h9⟩, ⟨h10, h11, h12⟩, ⟨h13, h14⟩, h15⟩ := hk
  exact ⟨h1, h2, h3, h4, h5, h6, h7, h8, h9, h10, h11, h12, h13, h14, h15⟩


/-- The copy made by `strdup` lives at an address other than the caller's. -/
theorem path_copy_apart {s : State} {path : Ptr} {p : Nat} {str : String}
    (hfresh : s.strs p = none) (hstr : s.cstr path = some str) : path ≠ some p := by
  rintro rfl
  simp [State.cstr, hfresh] at hstr

/-- What `jk_aio_execute` does to a live request: it stores some value `v` in
`result`, and `v` is the return value of the system call selected by `type`. -/
theorem execute_value {W : Type} {k : OpCodes} (sys : Syscalls W) (w : W) {s : State}
    {a : Nat} {req : jk_aio_request_t} (hk : k.Distinct) (hreq : s.reqs a = some req) :
    ∃ w' v, jk_aio_execute k sys w s (some a) = some (w', s.store a { req with result := v }) ∧
      (req.type = k.jk_aio_operate_read → v = (sys.read w req.fd req.buf req.size).1) ∧
      (req.type = k.jk_aio_operate_write → v = (sys.write w req.fd req.buf req.size).1) ∧
      (req.type = k.jk_aio_operate_close → v = (sys.close w req.fd).1) ∧
      (req.type = k.jk_aio_operate_open →
        v = (sys.open_ w (s.cstr req.path) req.flags req.mode).1) ∧
      (req.type = k.jk_aio_operate_mkdir → v = (sys.mkdir w (s.cstr req.path) req.mode).1) ∧
      (req.type = k.jk_aio_operate_rmdir → v = (sys.rmdir w (s.cstr req.path)).1) := by
  obtain ⟨n1, n2, n3, n4, n5, n6, n7, n8, n9, n10, n11, n12, n13, n14, n15⟩ := distinct_ne hk
  have hself : s.store a { req with result := req.result } = s := by
    simp [State.store, ← hreq]
  by_cases h1 : req.type = k.jk_aio_operate_read
  · exact ⟨(sys.read w req.fd req.buf req.size).2, (sys.read w req.fd req.buf req.size).1,
      by simp [jk_aio_execute, hreq, h1, n1, n1.symm, n2, n2.symm, n3, n3.symm, n4, n4.symm, n5, n5.symm, n6, n6.symm, n7, n7.symm, n8, n8.symm, n9, n9.symm, n10, n10.symm, n11, n11.symm, n12, n12.symm, n13, n13.symm, n14, n14.symm, n15, n15.symm], by simp [h1, n1, n2, n3, n4, n5]⟩
  by_cases h2 : req.type = k.jk_aio_operate_write
  · exact ⟨(sys.write w req.fd req.buf req.size).2, (sys.write w req.fd req.buf req.size).1,
      by simp [jk_aio_execute, hreq, h1, h2, n1, n1.symm, n2, n2.symm, n3, n3.symm, n4, n4.symm, n5, n5.symm, n6, n6.symm, n7, n7.symm, n8, n8.symm, n9, n9.symm, n10, n10.symm, n11, n11.symm, n12, n12.symm, n13, n13.symm, n14, n14.symm, n15, n15.symm], by simp [h2, n1.symm, n6, n7, n8, n9]⟩
  by_cases h3 : req.type = k.jk_aio_operate_close
  · exact ⟨(sys.close w req.fd).2, (sys.close w req.fd).1,
      by simp [jk_aio_execute, hreq, h1, h2, h3, n1, n1.symm, n2, n2.symm, n3, n3.symm, n4, n4.symm, n5, n5.symm, n6, n6.symm, n7, n7.symm, n8, n8.symm, n9, n9.symm, n10, n10.symm, n11, n11.symm, n12, n12.symm, n13, n13.symm, n14, n14.symm, n15, n15.symm],
      by simp [h3, n2.symm, n6.symm, n10, n11, n12]⟩
  by_cases h4 : req.type = k.jk_aio_operate_open
  · exact ⟨(sys.open_ w (s.cstr req.path) req.flags req.mode).2,
      (sys.open_ w (s.cstr req.path) req.flags req.mode).1,
      by simp [jk_aio_execute, hreq, h1, h2, h3, h4, n1, n1.symm, n2, n2.symm, n3, n3.symm, n4, n4.symm, n5, n5.symm, n6, n6.symm, n7, n7.symm, n8, n8.symm, n9, n9.symm, n10, n10.symm, n11, n11.symm, n12, n12.symm, n13, n13.symm, n14, n14.symm, n15, n15.symm],
      by simp [h4, n3.symm, n7.symm, n10.symm, n13, n14]⟩
  by_cases h5 : req.type = k.jk_aio_operate_mkdir
  · exact ⟨(sys.mkdir w (s.cstr req.path) req.mode).2,
      (sys.mkdir w (s.cstr req.path) req.mode).1,
      by simp [jk_aio_execute, hreq, h1, h2, h3, h4, h5, n1, n1.symm, n2, n2.symm, n3, n3.symm, n4, n4.symm, n5, n5.symm, n6, n6.symm, n7, n7.symm, n8, n8.symm, n9, n9.symm, n10, n10.symm, n11, n11.symm, n12, n12.symm, n13, n13.symm, n14, n14.symm, n15, n15.symm],
      by simp [h5, n4.symm, n8.symm, n11.symm, n13.symm, n15]⟩
  by_cases h6 : req.type = k.jk_aio_operate_rmdir
  · exact ⟨(sys.rmdir w (s.cstr req.path)).2, (sys.rmdir w (s.cstr req.path)).1,
      by simp [jk_aio_execute, hreq, h1, h2, h3, h4, h5, h6, n1, n1.symm, n2, n2.symm, n3, n3.symm, n4, n4.symm, n5, n5.symm, n6, n6.symm, n7, n7.symm, n8, n8.symm, n9, n9.symm, n10, n10.symm, n11, n11.symm, n12, n12.symm, n13, n13.symm, n14, n14.symm, n15, n15.symm],
      by simp [h6, n5.symm, n9.symm, n12.symm, n14.symm, n15.symm]⟩
  · exact ⟨w, req.result, by simp [jk_aio_execute, hreq, h1, h2, h3, h4, h5, h6, hself, n1, n1.symm, n2, n2.symm, n3, n3.symm, n4, n4.symm, n5, n5.symm, n6, n6.symm, n7, n7.symm, n8, n8.symm, n9, n9.symm, n10, n10.symm, n11, n11.symm, n12, n12.symm, n13, n13.symm, n14, n14.symm, n15, n15.symm],
      by simp [h1, h2, h3, h4, h5, h6]⟩

/-- Finishing the distinct live requests `rs`, none of them queued, puts them
in front of the queue in reverse order and touches neither logs nor
callbacks. -/
theorem finishAll_chain :
    ∀ (rs : List Nat) (s : State) (l : List Nat),
      Chain s.reqs s.aio.response l → s.aio.count = (l.length : Int) → rs.Nodup →
      (∀ a ∈ rs, a ∉ l) → (∀ a ∈ rs, ∃ req, s.reqs a = some req) →
      ∃ s', finishAll s rs = some s' ∧
        Chain s'.reqs s'.aio.response (rs.reverse ++ l) ∧
        s'.aio.count = ((rs.reverse ++ l).length : Int) ∧
        s'.calls = s.calls ∧ s'.freed = s.freed ∧ (∀ b, callback s' b = callback s b)
  | [], s, l, hc, hn, _, _, _ => ⟨s, rfl, by simpa using hc, by simpa using hn, rfl, rfl,
      fun _ => rfl⟩
  | a :: rs, s, l, hc, hn, hnd, hout, hlive => by
    obtain ⟨req, hreq⟩ := hlive a (List.mem_cons_self _ _)
    have hal : a ∉ l := hout a (List.mem_cons_self _ _)
    obtain ⟨hars, hnd'⟩ := List.nodup_cons.mp hnd
    let s1 : State :=
      { s with
        reqs := Function.update s.reqs a (some { req with next := s.aio.response })
        aio := { s.aio with response := some a, count := s.aio.count + 1 } }
    have hc1 : Chain s1.reqs s1.aio.response (a :: l) := chain_push req hc hal
    have hn1 : s1.aio.count = ((a :: l).length : Int) := by
      show s.aio.count + 1 = _
      rw [hn]; simp
    have hout1 : ∀ b ∈ rs, b ∉ a :: l := by
      intro b hb hbl
      rcases List.mem_cons.mp hbl with h1 | h1
      · exact hars (h1 ▸ hb)
      · exact hout b (List.mem_cons_of_mem _ hb) h1
    have hlive1 : ∀ b ∈ rs, ∃ r, s1.reqs b = some r := by
      intro b hb
      have hba : b ≠ a := fun e => hars (e ▸ hb)
      obtain ⟨r, hr⟩ := hlive b (List.mem_cons_of_mem _ hb)
      exact ⟨r, by show Function.update s.reqs a _ b = _; rw [Function.update_noteq hba, hr]⟩
    obtain ⟨s', hrun, hc', hn', hcalls, hfreed, hcb⟩ :=
      finishAll_chain rs s1 (a :: l) hc1 hn1 hnd' hout1 hlive1
    refine ⟨s', ?_, ?_, ?_, hcalls, hfreed, ?_⟩
    · simp only [finishAll, fininsh_eq hreq, Option.some_bind]
      exact hrun
    · simpa using hc'
    · simpa using hn'
    · intro b
      rw [hcb b]
      by_cases hba : b = a
      · subst hba
        simp [callback, s1, hreq]
      · simp [callback, s1, Function.update_noteq hba]

/-- C2: starting from an empty completion queue, after `jk_aio_fininsh` has run
on the distinct live requests `r1..rn` in that order with no poll in between,
one `jk_aio_poll` (with more fuel than requests) returns `n`, having popped and
destroyed them in the order `rn, ..., r1` and called the callbacks in that same
order, a request without a callback being skipped for the call only. -/
theorem poll_delivers_in_reverse_finish_order (s : State) (rs : List Nat) (fuel : Nat)
    (hhead : s.aio.response = none) (hcount : s.aio.count = 0) (hnd : rs.Nodup)
    (hlive : ∀ a ∈ rs, ∃ req, s.reqs a = some req) (hfuel : rs.length < fuel) :
    ∃ s1 s2, finishAll s rs = some s1 ∧
      jk_aio_poll fuel s1 = Outcome.done ((rs.length : Int), s2) ∧
      s2.calls = s.calls ++ rs.reverse.filterMap (callback s) ∧
      s2.freed = s.freed ++ rs.reverse := by
  obtain ⟨s1, hrun, hc, hn, hcalls, hfreed, hcb⟩ :=
    finishAll_chain rs s [] (chain_nil.mpr hhead) (by simpa using hcount) hnd
      (fun _ _ => List.not_mem_nil _) hlive
  rw [List.append_nil] at hc hn
  obtain ⟨s2, hpoll, hdr, _⟩ :=
    poll_loop_drains rs.reverse s1 fuel 0 hc hn (by simpa using hfuel)
  obtain ⟨_, _, _, _, _, d6, d7, _, _⟩ := hdr
  refine ⟨s1, s2, hrun, ?_, ?_, ?_⟩
  · simpa [jk_aio_poll] using hpoll
  · rw [d6, hcalls]
    congr 1
    exact List.filterMap_congr (fun b _ => hcb b)
  · rw [d7, hfreed]

/-- C3: on a completion queue whose `count` equals the length `n` of its list,
`jk_aio_poll` (with more fuel than `n`, and no Finish running meanwhile)
returns exactly `n` and leaves the queue empty with `count` 0; when `n = 0` it
returns 0 with the whole state, callback log included, as it was. -/
theorem poll_returns_count_and_empties (s : State) (l : List Nat) (fuel : Nat)
    (hc : Chain s.reqs s.aio.response l) (hn : s.aio.count = (l.length : Int))
    (hfuel : l.length < fuel) :
    ∃ s', jk_aio_poll fuel s = Outcome.done ((l.length : Int), s') ∧
      s'.aio.response = none ∧ s'.aio.count = 0 ∧
      Chain s'.reqs s'.aio.response [] ∧
      (l = [] → jk_aio_poll fuel s = Outcome.done (0, s)) := by
  obtain ⟨s', hpoll, hdr, hnil⟩ := poll_loop_drains l s fuel 0 hc hn hfuel
  have hp : jk_aio_poll fuel s = Outcome.done ((l.length : Int), s') := by
    simpa [jk_aio_poll] using hpoll
  refine ⟨s', hp, hdr.1, hdr.2.1, chain_nil.mpr hdr.1, ?_⟩
  intro hl
  rw [hp, hnil hl, hl]
  rfl


/-- After `jk_aio_init` the queue is well formed: the call resets it unless it
returns before doing so, in which case the queue is as it was. -/
theorem init_countOk (mutex_ret : Int) (pool_new : Int → Ptr) (workers : Int) (s : State)
    (h : mutex_ret ≠ -1 ∨ CountOk s) :
    CountOk (jk_aio_init mutex_ret pool_new workers s).2 := by
  by_cases h1 : mutex_ret = -1
  · rcases h with h | h
    · exact absurd h1 h
    · subst h1
      exact h
  · refine countOk_of_empty ?_
    by_cases h2 : pool_new workers = none <;> simp [jk_aio_init, h1, h2]

/-- C4: the predicate "`aio.count` equals the number of requests reachable from
`aio.response` through `next` links" holds after `jk_aio_init` (which resets
the queue, or else returns at once and leaves a queue that satisfied it), is
preserved by the push of `jk_aio_fininsh` (of a live request not yet queued)
and by the critical section of `jk_aio_poll` (which never faults under it), and
so holds in every configuration reachable from init by Finish pushes, pops and
deliveries. -/
theorem count_matches_queue_length :
    (∀ (mutex_ret : Int) (pool_new : Int → Ptr) (workers : Int) (s : State),
      mutex_ret ≠ -1 ∨ CountOk s →
      CountOk (jk_aio_init mutex_ret pool_new workers s).2) ∧
    (∀ (s : State) (a : Nat), CountOk s → NotQueued s a → (∃ req, s.reqs a = some req) →
      ∃ s', jk_aio_fininsh s (some a) = some s' ∧ CountOk s') ∧
    (∀ s : State, CountOk s →
      (s.aio.count = 0 ∧ poll_pop s = Pop.empty) ∨
      (0 < s.aio.count ∧ ∃ a s', poll_pop s = Pop.item a s' ∧ CountOk s')) ∧
    (∀ (s0 : State) (c : Config), Reach s0 c → CountOk c.st) := by
  refine ⟨init_countOk, ?_, ?_, ?_⟩
  · rintro s a ⟨l, hc, hn⟩ hnq ⟨req, hreq⟩
    refine ⟨_, fininsh_eq hreq, a :: l, chain_push req hc (hnq l hc), ?_⟩
    show s.aio.count + 1 = _
    rw [hn]; simp
  · rintro s ⟨l, hc, hn⟩
    cases l with
    | nil =>
      left
      have h0 : s.aio.count = 0 := by simpa using hn
      exact ⟨h0, by simp [poll_pop, h0]⟩
    | cons a l =>
      right
      obtain ⟨hhead, req, hreq, hc'⟩ := chain_cons.mp hc
      have hpos : 0 < s.aio.count := by
        rw [hn]; simp only [List.length_cons]; omega
      refine ⟨hpos, a, _, poll_pop_eq hpos hhead hreq, l, hc', ?_⟩
      show s.aio.count - 1 = _
      rw [hn]; simp
  · intro s0 c hr
    obtain ⟨q, hc, hn, _⟩ := queueInv_reach hr
    exact ⟨q, hc, hn⟩

/-- C10: in every configuration reachable from `jk_aio_init` through Finish
pushes and poll pops, when `jk_aio_poll` sees `aio.count > 0` the head
`aio.response` is a live request: reading `req->next` is defined (the critical
section yields an item, not a fault) and `req` is not `NULL`, so the early
return of line 74 is not taken. -/
theorem head_is_request_when_count_positive (s0 : State) (c : Config)
    (hr : Reach s0 c) (hpos : 0 < c.st.aio.count) :
    ∃ a req s', c.st.aio.response = some a ∧ c.st.reqs a = some req ∧
      poll_pop c.st = Pop.item a s' := by
  obtain ⟨q, hc, hn, _⟩ := queueInv_reach hr
  cases q with
  | nil =>
    rw [hn] at hpos
    simp at hpos
  | cons a l =>
    obtain ⟨hhead, req, hreq, _⟩ := chain_cons.mp hc
    exact ⟨a, req, _, hhead, hreq, poll_pop_eq hpos hhead hreq⟩

theorem callback_snd {s : State} {b : Nat} {x : Nat × Nat} (h : callback s b = some x) :
    x.2 = b := by
  unfold callback at h
  cases hr : s.reqs b with
  | none => simp [hr] at h
  | some req =>
    cases hf : req.finish with
    | none => simp [hr, hf] at h
    | some f =>
      simp [hr, hf] at h
      rw [← h]

/-- In the callback log of a duplicate-free delivery list, the entries naming
a delivered request are its callback once, or none if it has no callback. -/
theorem calls_of_request (s0 : State) :
    ∀ (l : List Nat) (a : Nat), l.Nodup → a ∈ l →
      (l.filterMap (callback s0)).filter (fun x => decide (x.2 = a)) = (callback s0 a).toList
  | [], _, _, ha => absurd ha (List.not_mem_nil _)
  | b :: l, a, hnd, ha => by
    obtain ⟨hbl, hnd'⟩ := List.nodup_cons.mp hnd
    have hrest : ∀ l' : List Nat, a ∉ l' →
        (l'.filterMap (callback s0)).filter (fun x => decide (x.2 = a)) = [] := by
      intro l' hal
      rw [List.filter_eq_nil_iff]
      intro x hx
      obtain ⟨y, hy, hxy⟩ := List.mem_filterMap.mp hx
      have := callback_snd hxy
      simp only [decide_eq_true_eq]
      intro e
      exact hal (by rw [← e, this]; exact hy)
    by_cases hab : a = b
    · subst hab
      rw [List.filterMap_cons]
      cases hcb : callback s0 a with
      | none => simpa using hrest l hbl
      | some x =>
        have hx := callback_snd hcb
        simp only [List.filter_cons, hx, decide_True, if_true, Option.toList]
        rw [hrest l hbl]
    · have hal : a ∈ l := by
        rcases List.mem_cons.mp ha with h1 | h1
        · exact absurd h1 hab
        · exact h1
      rw [List.filterMap_cons]
      cases hcb : callback s0 b with
      | none => simpa using calls_of_request s0 l a hnd' hal
      | some x =>
        have hx := callback_snd hcb
        have hxa : ¬ x.2 = a := fun e => hab (by rw [← e, hx])
        simp only [List.filter_cons, hxa, decide_False]
        simpa using calls_of_request s0 l a hnd' hal

/-- A map that is injective on a duplicate-free list yields a duplicate-free
list of values. -/
theorem nodup_filterMap_of_owned {α β : Type} (f : α → Option β) :
    ∀ l : List α, l.Nodup →
      (∀ a ∈ l, ∀ b ∈ l, ∀ p, f a = some p → f b = some p → a = b) →
      (l.filterMap f).Nodup
  | [], _, _ => by simp
  | a :: l, hnd, hinj => by
    obtain ⟨hal, hnd'⟩ := List.nodup_cons.mp hnd
    have ih := nodup_filterMap_of_owned f l hnd'
      (fun x hx y hy p h1 h2 =>
        hinj x (List.mem_cons_of_mem _ hx) y (List.mem_cons_of_mem _ hy) p h1 h2)
    rw [List.filterMap_cons]
    cases hfa : f a with
    | none => simpa using ih
    | some p =>
      simp only
      refine List.nodup_cons.mpr ⟨?_, ih⟩
      intro hp
      obtain ⟨b, hb, hfb⟩ := List.mem_filterMap.mp hp
      have := hinj a (List.mem_cons_self _ _) b (List.mem_cons_of_mem _ hb) p hfa hfb
      exact hal (this ▸ hb)

/-- From the logs of a duplicate-free delivery list to "exactly once". -/
theorem deliveredOnce_of_logs {s0 st : State} {dl : List Nat}
    (hl : DrainLogs s0 st dl) (hnd : dl.Nodup) : DeliveredOnce s0 st dl := by
  refine ⟨hl, ?_, ?_⟩
  · intro a ha
    exact ⟨List.count_eq_one_of_mem hnd ha, calls_of_request s0 dl a hnd ha⟩
  · intro hown a ha p hp
    exact List.count_eq_one_of_mem (nodup_filterMap_of_owned (pathOf s0) dl hnd hown)
      (List.mem_filterMap.mpr ⟨a, ha, hp⟩)

/-- C5: no duplicate and no loss.  In every configuration reachable by Finish
pushes (of requests neither queued nor delivered) and atomic pop-and-deliver
steps: the finished requests are exactly the queued ones together with the
delivered ones, with no request in both or twice; each delivered request was
popped, called back (if it has a callback) and destroyed exactly once, the
request and its path copy both freed once and no longer allocated, no other
string touched (`DeliveredOnce`); and a `jk_aio_poll` run to its return (with
enough fuel and no further Finish) is a sequence of pop-and-deliver steps that
returns the queue length and ends in a reachable configuration with an empty
queue where every finished request is delivered, again exactly once. -/
theorem no_duplicate_no_loss (s0 : State) (c : Config) (hr : DrainReach s0 c) :
    ∃ q, Chain c.st.reqs c.st.aio.response q ∧
      c.finished.Perm (q ++ c.delivered) ∧ (q ++ c.delivered).Nodup ∧
      DeliveredOnce s0 c.st c.delivered ∧
      ∀ fuel, q.length < fuel →
        ∃ c', DrainReach s0 c' ∧
          jk_aio_poll fuel c.st = Outcome.done ((q.length : Int), c'.st) ∧
          c'.st.aio.response = none ∧ c'.st.aio.count = 0 ∧
          c'.finished = c.finished ∧ c'.delivered = c.delivered ++ q ∧
          c'.delivered.Perm c.finished ∧ c'.delivered.Nodup ∧
          DeliveredOnce s0 c'.st c'.delivered := by
  obtain ⟨q, hc, hn, hperm, hnd, hlogs, _⟩ := drainInv_reach hr
  have hndd : c.delivered.Nodup := (List.nodup_append.mp hnd).2.1
  refine ⟨q, hc, hperm, hnd, deliveredOnce_of_logs hlogs hndd, ?_⟩
  intro fuel hfuel
  obtain ⟨c', hr', hrun, hfin, hdl, h1, h2⟩ := poll_loop_steps s0 q c fuel 0 hr hc hn hfuel
  obtain ⟨q', hc', _, _, _, hlogs', _⟩ := drainInv_reach hr'
  have hnd2 : c'.delivered.Nodup := by
    rw [hdl]
    exact List.perm_append_comm.nodup_iff.mp hnd
  refine ⟨c', hr', by simpa [jk_aio_poll] using hrun, h1, h2, hfin, hdl, ?_, hnd2,
    deliveredOnce_of_logs hlogs' hnd2⟩
  rw [hdl]
  exact List.perm_append_comm.trans hperm.symm

/-- Allocating at a free address and freeing it again restores the heap. -/
theorem update_free_fresh {h : Nat → Option jk_aio_request_t} {a : Nat}
    (v : Option jk_aio_request_t) (hfresh : h a = none) :
    Function.update (Function.update h a v) a none = h := by
  rw [Function.update_idem]
  funext b
  by_cases hb : b = a
  · subst hb
    simp [hfresh]
  · simp [Function.update_noteq hb]

/-- C7: for `jk_aio_open`, `jk_aio_mkdir` and `jk_aio_rmdir`, if allocating the
request fails, or if it succeeds (at a free address) and copying the valid path
fails, the function returns -1; nothing is handed to the executor, the
completion queue is unchanged, the request heap and the string heap are as
before the call, and `free` has been called exactly once on the request that
had been allocated (not at all when there was none) and on no path. -/
theorem path_submission_alloc_failure (k : OpCodes) (e : Env) (s : State) (path : Ptr)
    (flags mode : Int) (finish : Ptr)
    (hfail : e.malloc = none ∨
      ∃ a, e.malloc = some a ∧ s.reqs a = none ∧ e.strdup = none ∧ ∃ str, s.cstr path = some str) :
    ∀ r ∈ [jk_aio_open k e s path flags mode finish, jk_aio_mkdir k e s path mode finish,
        jk_aio_rmdir k e s path finish],
      ∃ s', r = some (-1, s') ∧ s'.pushed = s.pushed ∧ s'.aio = s.aio ∧
        s'.worker_pool = s.worker_pool ∧ s'.reqs = s.reqs ∧ s'.strs = s.strs ∧
        s'.calls = s.calls ∧ s'.freedPaths = s.freedPaths ∧
        s'.freed = s.freed ++ e.malloc.toList := by
  intro r hr
  simp only [List.mem_cons, List.mem_singleton, List.not_mem_nil, or_false] at hr
  rcases hfail with hm | ⟨a, hm, hfresh, hsd, str, hstr⟩
  · refine ⟨s, ?_, rfl, rfl, rfl, rfl, rfl, rfl, rfl, by simp [hm]⟩
    rcases hr with rfl | rfl | rfl
    · simp [jk_aio_open, jk_aio_request, hm]
    · simp [jk_aio_mkdir, jk_aio_request, hm]
    · simp [jk_aio_rmdir, jk_aio_request, hm]
  · have hstr1 : ∀ t, (s.store a (blank t finish)).cstr path = some str := fun _ => hstr
    refine ⟨{ s with freed := s.freed ++ [a] }, ?_, rfl, rfl, rfl, rfl, rfl, rfl, rfl,
      by simp [hm]⟩
    rcases hr with rfl | rfl | rfl
    · simp only [jk_aio_open, jk_aio_request, hm, hsd, strdup, hstr1]
      simp [jk_aio_destory, State.store, free_req, blank, update_free_fresh _ hfresh]
    · simp only [jk_aio_mkdir, jk_aio_request, hm, hsd, strdup, hstr1]
      simp [jk_aio_destory, State.store, free_req, blank, update_free_fresh _ hfresh]
    · simp only [jk_aio_rmdir, jk_aio_request, hm, hsd, strdup, hstr1]
      simp [jk_aio_destory, State.store, free_req, blank, update_free_fresh _ hfresh]

/-- C8: `jk_aio_init` fails cleanly.  Whenever pool creation is reached and
fails, it returns -1 with the lock destroyed and no pool handle held, which is
in particular so for a worker count of zero or less with a pool constructor
that refuses such counts; whenever lock initialisation and pool creation both
succeed, it returns 0 with an empty completion queue, `count` 0, a usable lock
and the new pool handle. -/
theorem init_fails_cleanly (mutex_ret : Int) (pool_new : Int → Ptr) (workers : Int)
    (s : State) :
    (mutex_ret ≠ -1 → pool_new workers = none →
      (jk_aio_init mutex_ret pool_new workers s).1 = -1 ∧
      (jk_aio_init mutex_ret pool_new workers s).2.aio.lock = LockState.destroyed ∧
      (jk_aio_init mutex_ret pool_new workers s).2.worker_pool = none) ∧
    (mutex_ret ≠ -1 → (∀ n, n ≤ 0 → pool_new n = none) → workers ≤ 0 →
      (jk_aio_init mutex_ret pool_new workers s).1 = -1 ∧
      (jk_aio_init mutex_ret pool_new workers s).2.aio.lock = LockState.destroyed ∧
      (jk_aio_init mutex_ret pool_new workers s).2.worker_pool = none) ∧
    (∀ h, mutex_ret = 0 → pool_new workers = some h →
      (jk_aio_init mutex_ret pool_new workers s).1 = 0 ∧
      (jk_aio_init mutex_ret pool_new workers s).2.aio.response = none ∧
      (jk_aio_init mutex_ret pool_new workers s).2.aio.count = 0 ∧
      (jk_aio_init mutex_ret pool_new workers s).2.aio.lock = LockState.ready ∧
      (jk_aio_init mutex_ret pool_new workers s).2.worker_pool = some h) := by
  have key : mutex_ret ≠ -1 → pool_new workers = none →
      (jk_aio_init mutex_ret pool_new workers s).1 = -1 ∧
      (jk_aio_init mutex_ret pool_new workers s).2.aio.lock = LockState.destroyed ∧
      (jk_aio_init mutex_ret pool_new workers s).2.worker_pool = none := by
    intro h1 h2
    simp [jk_aio_init, h1, h2, pthread_mutex_destroy]
  refine ⟨key, fun h1 hp hw => key h1 (hp workers hw), ?_⟩
  intro h h1 h2
  subst h1
  simp [jk_aio_init, h2, pthread_mutex_init]

/-- Running `jk_aio_execute` on a live request stores a value in `result` and does
nothing else; for a `type` outside the six kinds it does nothing at all. -/
theorem execute_frame {W : Type} (k : OpCodes) (sys : Syscalls W) (w : W) {s : State}
    {a : Nat} {req : jk_aio_request_t} (hreq : s.reqs a = some req) :
    ∃ w' v, jk_aio_execute k sys w s (some a) = some (w', s.store a { req with result := v }) ∧
      (req.type ≠ k.jk_aio_operate_read → req.type ≠ k.jk_aio_operate_write →
       req.type ≠ k.jk_aio_operate_close → req.type ≠ k.jk_aio_operate_open →
       req.type ≠ k.jk_aio_operate_mkdir → req.type ≠ k.jk_aio_operate_rmdir →
       jk_aio_execute k sys w s (some a) = some (w, s)) := by
  have hself : s.store a { req with result := req.result } = s := by
    simp [State.store, ← hreq]
  by_cases h1 : req.type = k.jk_aio_operate_read
  · exact ⟨(sys.read w req.fd req.buf req.size).2, (sys.read w req.fd req.buf req.size).1,
      by simp only [jk_aio_execute, hreq]; rw [if_pos h1], fun c => absurd h1 c⟩
  by_cases h2 : req.type = k.jk_aio_operate_write
  · exact ⟨(sys.write w req.fd req.buf req.size).2, (sys.write w req.fd req.buf req.size).1,
      by simp only [jk_aio_execute, hreq]; rw [if_neg h1, if_pos h2],
      fun _ c => absurd h2 c⟩
  by_cases h3 : req.type = k.jk_aio_operate_close
  · exact ⟨(sys.close w req.fd).2, (sys.close w req.fd).1,
      by simp only [jk_aio_execute, hreq]; rw [if_neg h1, if_neg h2, if_pos h3],
      fun _ _ c => absurd h3 c⟩
  by_cases h4 : req.type = k.jk_aio_operate_open
  · exact ⟨(sys.open_ w (s.cstr req.path) req.flags req.mode).2,
      (sys.open_ w (s.cstr req.path) req.flags req.mode).1,
      by simp only [jk_aio_execute, hreq]; rw [if_neg h1, if_neg h2, if_neg h3, if_pos h4],
      fun _ _ _ c => absurd h4 c⟩
  by_cases h5 : req.type = k.jk_aio_operate_mkdir
  · exact ⟨(sys.mkdir w (s.cstr req.path) req.mode).2,
      (sys.mkdir w (s.cstr req.path) req.mode).1,
      by simp only [jk_aio_execute, hreq]
         rw [if_neg h1, if_neg h2, if_neg h3, if_neg h4, if_pos h5],
      fun _ _ _ _ c => absurd h5 c⟩
  by_cases h6 : req.type = k.jk_aio_operate_rmdir
  · exact ⟨(sys.rmdir w (s.cstr req.path)).2, (sys.rmdir w (s.cstr req.path)).1,
      by simp only [jk_aio_execute, hreq]
         rw [if_neg h1, if_neg h2, if_neg h3, if_neg h4, if_neg h5, if_pos h6],
      fun _ _ _ _ _ c => absurd h6 c⟩
  · have hex : jk_aio_execute k sys w s (some a) = some (w, s) := by
      simp only [jk_aio_execute, hreq]
      rw [if_neg h1, if_neg h2, if_neg h3, if_neg h4, if_neg h5, if_neg h6]
    exact ⟨w, req.result, by rw [hex, hself], fun _ _ _ _ _ _ => hex⟩

/-- C9: `jk_aio_execute` on a live request changes at most its `result` field:
kind, descriptor, path, buffer reference, size, flags, mode, callback and link
are as before, every other request, the string heap, the logs, the pool handle
and the completion queue (lock, list head, count) are unchanged; when the kind
is none of the six operation kinds, state and environment are entirely
unchanged. -/
theorem execute_changes_only_result {W : Type} (k : OpCodes) (sys : Syscalls W) (w : W)
    (s : State) (a : Nat) (req : jk_aio_request_t) (hreq : s.reqs a = some req) :
    ∃ w' s' req', jk_aio_execute k sys w s (some a) = some (w', s') ∧
      s'.reqs a = some req' ∧
      req'.type = req.type ∧ req'.fd = req.fd ∧ req'.path = req.path ∧
      req'.buf = req.buf ∧ req'.size = req.size ∧ req'.flags = req.flags ∧
      req'.mode = req.mode ∧ req'.finish = req.finish ∧ req'.next = req.next ∧
      s'.aio = s.aio ∧ s'.worker_pool = s.worker_pool ∧
      (∀ b, b ≠ a → s'.reqs b = s.reqs b) ∧ s'.strs = s.strs ∧
      s'.pushed = s.pushed ∧ s'.calls = s.calls ∧ s'.freed = s.freed ∧
      s'.freedPaths = s.freedPaths ∧
      (req.type ≠ k.jk_aio_operate_read → req.type ≠ k.jk_aio_operate_write →
       req.type ≠ k.jk_aio_operate_close → req.type ≠ k.jk_aio_operate_open →
       req.type ≠ k.jk_aio_operate_mkdir → req.type ≠ k.jk_aio_operate_rmdir →
       req' = req ∧ jk_aio_execute k sys w s (some a) = some (w, s)) := by
  obtain ⟨w', v, hex, hnone⟩ := execute_frame k sys w hreq
  refine ⟨w', _, { req with result := v }, hex, Function.update_same _ _ _,
    rfl, rfl, rfl, rfl, rfl, rfl, rfl, rfl, rfl, rfl, rfl, ?_, rfl, rfl, rfl, rfl, rfl, ?_⟩
  · intro b hb
    exact Function.update_noteq hb _ _
  · intro h1 h2 h3 h4 h5 h6
    have hs := hnone h1 h2 h3 h4 h5 h6
    refine ⟨?_, hs⟩
    rw [hs] at hex
    have h := congrArg (fun o => o.bind (fun x => x.2.reqs a)) hex
    simp only [Option.some_bind, State.store, Function.update_same, hreq] at h
    exact (Option.some.inj h).symm


/-! ## Instances of the results -/

theorem booted_boot0 : Booted boot0 :=
  ⟨0, fun _ => some 100, 4, heap0, rfl⟩

theorem notQueued_of_chain {s : State} {q : List Nat} {a : Nat}
    (hc : Chain s.reqs s.aio.response q) (ha : a ∉ q) : NotQueued s a := by
  intro l hl
  rw [chain_functional hl hc]
  exact ha

theorem reach_cfg1 : Reach boot0 ⟨queued1, [1], [], []⟩ :=
  Reach.step (Reach.init booted_boot0)
    (Step.finish ⟨boot0, [], [], []⟩ 1 queued1
      (notQueued_of_chain (q := []) (by decide) (by decide)) (by decide) (by decide) rfl)

theorem poll_delivers_in_reverse_finish_order_witness :
    ∃ s1 s2, finishAll boot0 [1, 2, 3] = some s1 ∧
      jk_aio_poll 4 s1 = Outcome.done (3, s2) ∧
      s2.calls = [(13, 3), (12, 2), (11, 1)] ∧ s2.freed = [3, 2, 1] := by
  obtain ⟨s1, s2, h1, h2, h3, h4⟩ :=
    poll_delivers_in_reverse_finish_order boot0 [1, 2, 3] 4 rfl rfl (by decide)
      (fun a ha => by
        simp only [List.mem_cons, List.mem_singleton, List.not_mem_nil, or_false] at ha
        rcases ha with rfl | rfl | rfl <;> exact ⟨_, rfl⟩)
      (by decide)
  exact ⟨s1, s2, h1, h2, h3, h4⟩

theorem poll_returns_count_and_empties_witness :
    ∃ s', jk_aio_poll 4 queued3 = Outcome.done (3, s') ∧
      s'.aio.response = none ∧ s'.aio.count = 0 ∧
      Chain s'.reqs s'.aio.response [] ∧
      ([3, 2, 1] = ([] : List Nat) → jk_aio_poll 4 queued3 = Outcome.done (0, queued3)) :=
  poll_returns_count_and_empties queued3 [3, 2, 1] 4 (by decide) rfl (by decide)

theorem count_matches_queue_length_witness :
    CountOk boot0 ∧
    (∃ s', jk_aio_fininsh boot0 (some 1) = some s' ∧ CountOk s') ∧
    ((queued3.aio.count = 0 ∧ poll_pop queued3 = Pop.empty) ∨
      (0 < queued3.aio.count ∧ ∃ a s', poll_pop queued3 = Pop.item a s' ∧ CountOk s')) ∧
    CountOk queued1 :=
  have hboot : CountOk boot0 :=
    count_matches_queue_length.1 0 (fun _ => some 100) 4 heap0 (Or.inl (by decide))
  ⟨hboot,
   count_matches_queue_length.2.1 boot0 1 hboot
     (notQueued_of_chain (q := []) (by decide) (by decide)) ⟨_, rfl⟩,
   count_matches_queue_length.2.2.1 queued3 ⟨[3, 2, 1], by decide, rfl⟩,
   count_matches_queue_length.2.2.2 boot0 ⟨queued1, [1], [], []⟩ reach_cfg1⟩

theorem head_is_request_when_count_positive_witness :
    ∃ a req s', queued1.aio.response = some a ∧ queued1.reqs a = some req ∧
      poll_pop queued1 = Pop.item a s' :=
  head_is_request_when_count_positive boot0 ⟨queued1, [1], [], []⟩ reach_cfg1 (by decide)


theorem drainReach_cfg : DrainReach bootP ⟨drainedP, [1, 5], [], [5]⟩ :=
  DrainReach.step
    (DrainReach.step
      (DrainReach.step (DrainReach.init ⟨0, fun _ => some 100, 4, heapP, rfl⟩)
        (DrainStep.finish ⟨bootP, [], [], []⟩ 1 queuedP1
          (notQueued_of_chain (q := []) (by decide) (by decide)) (by decide) rfl))
      (DrainStep.finish ⟨queuedP1, [1], [], []⟩ 5 queuedP2
        (notQueued_of_chain (q := [1]) (by decide) (by decide)) (by decide) rfl))
    (DrainStep.popDeliver ⟨queuedP2, [1, 5], [], []⟩ 5 poppedP drainedP rfl rfl)

theorem no_duplicate_no_loss_witness :
    (∃ q, Chain drainedP.reqs drainedP.aio.response q ∧
      [1, 5].Perm (q ++ [5]) ∧ (q ++ [5]).Nodup ∧
      DeliveredOnce bootP drainedP [5] ∧
      ∀ fuel, q.length < fuel →
        ∃ c', DrainReach bootP c' ∧
          jk_aio_poll fuel drainedP = Outcome.done ((q.length : Int), c'.st) ∧
          c'.st.aio.response = none ∧ c'.st.aio.count = 0 ∧
          c'.finished = [1, 5] ∧ c'.delivered = [5] ++ q ∧
          c'.delivered.Perm [1, 5] ∧ c'.delivered.Nodup ∧
          DeliveredOnce bootP c'.st c'.delivered) ∧
    pathOf bootP 5 = some 21 ∧ bootP.strs 21 = some "/tmp/d" ∧
    drainedP.freedPaths = [21] ∧ drainedP.strs 21 = none ∧
    drainedP.freed = [5] ∧ drainedP.calls = [(15, 5)] ∧ drainedP.reqs 5 = none :=
  ⟨no_duplicate_no_loss bootP ⟨drainedP, [1, 5], [], [5]⟩ drainReach_cfg,
   rfl, rfl, rfl, rfl, rfl, rfl, rfl⟩

theorem path_submission_alloc_failure_witness :
    (∃ s', jk_aio_open codes ⟨some 5, none, 0⟩ heap0 (some 20) 0 420 (some 11) = some (-1, s') ∧
      s'.pushed = heap0.pushed ∧ s'.aio = heap0.aio ∧
      s'.worker_pool = heap0.worker_pool ∧ s'.reqs = heap0.reqs ∧ s'.strs = heap0.strs ∧
      s'.calls = heap0.calls ∧ s'.freedPaths = heap0.freedPaths ∧
      s'.freed = heap0.freed ++ (some 5 : Ptr).toList) ∧
    (∃ s', jk_aio_rmdir codes ⟨some 5, none, 0⟩ heap0 (some 20) (some 11) = some (-1, s') ∧
      s'.pushed = heap0.pushed ∧ s'.aio = heap0.aio ∧
      s'.worker_pool = heap0.worker_pool ∧ s'.reqs = heap0.reqs ∧ s'.strs = heap0.strs ∧
      s'.calls = heap0.calls ∧ s'.freedPaths = heap0.freedPaths ∧
      s'.freed = heap0.freed ++ (some 5 : Ptr).toList) :=
  have h := path_submission_alloc_failure codes ⟨some 5, none, 0⟩ heap0 (some 20) 0 420
    (some 11) (Or.inr ⟨5, rfl, rfl, rfl, "/tmp/d", rfl⟩)
  ⟨h _ (List.mem_cons_self _ _),
   h _ (List.mem_cons_of_mem _ (List.mem_cons_of_mem _ (List.mem_cons_self _ _)))⟩

theorem init_fails_cleanly_witness :
    ((jk_aio_init 0 (fun _ => none) 0 heap0).1 = -1 ∧
      (jk_aio_init 0 (fun _ => none) 0 heap0).2.aio.lock = LockState.destroyed ∧
      (jk_aio_init 0 (fun _ => none) 0 heap0).2.worker_pool = none) ∧
    ((jk_aio_init 0 (fun _ => some 100) 4 heap0).1 = 0 ∧
      (jk_aio_init 0 (fun _ => some 100) 4 heap0).2.aio.response = none ∧
      (jk_aio_init 0 (fun _ => some 100) 4 heap0).2.aio.count = 0 ∧
      (jk_aio_init 0 (fun _ => some 100) 4 heap0).2.aio.lock = LockState.ready ∧
      (jk_aio_init 0 (fun _ => some 100) 4 heap0).2.worker_pool = some 100) :=
  ⟨(init_fails_cleanly 0 (fun _ => none) 0 heap0).2.1 (by decide) (fun _ _ => rfl)
      (le_refl 0),
   (init_fails_cleanly 0 (fun _ => some 100) 4 heap0).2.2 100 rfl rfl⟩

theorem execute_changes_only_result_witness :
    ∃ w' s' req', jk_aio_execute codes toySys 0 heap0 (some 1) = some (w', s') ∧
      s'.reqs 1 = some req' ∧
      req'.type = (blank 0 (some 11)).type ∧ req'.fd = (blank 0 (some 11)).fd ∧
      req'.path = (blank 0 (some 11)).path ∧ req'.buf = (blank 0 (some 11)).buf ∧
      req'.size = (blank 0 (some 11)).size ∧ req'.flags = (blank 0 (some 11)).flags ∧
      req'.mode = (blank 0 (some 11)).mode ∧ req'.finish = (blank 0 (some 11)).finish ∧
      req'.next = (blank 0 (some 11)).next ∧
      s'.aio = heap0.aio ∧ s'.worker_pool = heap0.worker_pool ∧
      (∀ b, b ≠ 1 → s'.reqs b = heap0.reqs b) ∧ s'.strs = heap0.strs ∧
      s'.pushed = heap0.pushed ∧ s'.calls = heap0.calls ∧ s'.freed = heap0.freed ∧
      s'.freedPaths = heap0.freedPaths ∧
      ((blank 0 (some 11)).type ≠ codes.jk_aio_operate_read →
       (blank 0 (some 11)).type ≠ codes.jk_aio_operate_write →
       (blank 0 (some 11)).type ≠ codes.jk_aio_operate_close →
       (blank 0 (some 11)).type ≠ codes.jk_aio_operate_open →
       (blank 0 (some 11)).type ≠ codes.jk_aio_operate_mkdir →
       (blank 0 (some 11)).type ≠ codes.jk_aio_operate_rmdir →
       req' = blank 0 (some 11) ∧
       jk_aio_execute codes toySys 0 heap0 (some 1) = some (0, heap0)) :=
  execute_changes_only_result codes toySys 0 heap0 1 (blank 0 (some 11)) rfl

/-- C6, as the code behaves: when `jk_thread_pool_push` refuses (returns -1),
`jk_aio_read` and `jk_aio_open` return -1 but the request they built is still
allocated (and for `jk_aio_open` so is the path copy): `free` has been called
on nothing and the executor holds nothing. -/
theorem rejected_submission_leaks :
    (jk_aio_read codes ⟨some 5, none, -1⟩ heap0 3 none 16 (some 11)).1 = -1 ∧
    ((jk_aio_read codes ⟨some 5, none, -1⟩ heap0 3 none 16 (some 11)).2.reqs 5).isSome = true ∧
    heap0.reqs 5 = none ∧
    (jk_aio_read codes ⟨some 5, none, -1⟩ heap0 3 none 16 (some 11)).2.freed = [] ∧
    (jk_aio_read codes ⟨some 5, none, -1⟩ heap0 3 none 16 (some 11)).2.pushed = [] ∧
    ∃ s', jk_aio_open codes ⟨some 5, some 21, -1⟩ heap0 (some 20) 0 420 (some 11)
        = some (-1, s') ∧
      (s'.reqs 5).isSome = true ∧ s'.strs 21 = some "/tmp/d" ∧ heap0.strs 21 = none ∧
      s'.freed = [] ∧ s'.freedPaths = [] ∧ s'.pushed = [] :=
  ⟨rfl, rfl, rfl, rfl, rfl, _, rfl, rfl, rfl, rfl, rfl, rfl, rfl⟩


end JkAio
